import Mathlib

/-!
Verification of the polling/deduplication/fan-out scheduler of the
polymarket-tracker repository.

The development shallowly embeds the scheduler Durable Object
(`SchedulerDO.alarm` and `SchedulerDO.checkSubscriptions`), the activity
client (`getUserActivity`), the message renderer (`messages/format.ts`
with its helpers from `utils/format.ts` and `i18n`), and the delivery
loop over `sendTelegram`.

Modelling conventions:
- JS objects / `Map`s keyed by strings or numbers become insertion-ordered
  association lists (`alookup` / `aset` below reproduce property lookup,
  in-place update and append-on-new-key).
- JS `Set` becomes an insertion-ordered duplicate-free list.
- Unix-second timestamps and millisecond instants are `Nat`; `Nat`
  subtraction agrees with the JS code at every subtraction site (each is
  guarded, or the truncation coincides with the JS comparison result, as
  noted inline).
- JS numbers carrying money amounts and prices are `ℚ`. The cycle only
  ever compares them; the leaf renderers format them from `.num`/`.den`.
- A JS string field that the code tests for truthiness before use
  (`transactionHash`, `alias`, `side`, `slug`) is `Option`/emptiness
  tested exactly as the source does; `transactionHash` is `Option String`
  with `none` covering both "absent" and the falsy empty string.
- The upstream HTTP transport and the Telegram transport are parameters
  (`api`, `sendOk`): the cycle is a pure function of them.
- `parallelLimit` runs per-address work concurrently, but every address
  touches only its own watermark key and all delivery happens strictly
  after all per-address processing, so the sequential fold below is a
  faithful linearization.
-/

namespace Polymarket

/-! ### Association-list model of JS objects and Maps -/

/-- Property lookup on a JS object / `Map.get`: first binding wins
(bindings are unique in practice; the model is total anyway). -/
def alookup {κ α : Type} [DecidableEq κ] : List (κ × α) → κ → Option α
  | [], _ => none
  | (k, v) :: rest, a => if k = a then some v else alookup rest a

/-- Property assignment on a JS object: update the binding in place if the
key exists, otherwise append it (JS keeps key insertion order). -/
def aset {κ α : Type} [DecidableEq κ] : List (κ × α) → κ → α → List (κ × α)
  | [], k, v => [(k, v)]
  | (k', v') :: rest, k, v =>
    if k' = k then (k', v) :: rest else (k', v') :: aset rest k v

/-- Append one value to the list stored under a key of a JS `Map` of
lists, creating the entry at the end if absent (the `addressMap` and
`messageGroups` idiom of `checkSubscriptions`). -/
def mapAppend {κ α : Type} [DecidableEq κ] :
    List (κ × List α) → κ → α → List (κ × List α)
  | [], k, v => [(k, [v])]
  | (k', vs) :: rest, k, v =>
    if k' = k then (k', vs ++ [v]) :: rest else (k', vs) :: mapAppend rest k v

/-- Keys of an association list, in order. -/
def keysOf {κ α : Type} (l : List (κ × α)) : List κ := l.map Prod.fst

/-- Membership test of a JS `Set` of strings (`Set.has`). -/
def setHas (s : List String) (h : String) : Bool := s.contains h

/-- Element insertion of a JS `Set` of strings (`Set.add`): ignored when
present, appended at the end when new. -/
def setAdd (s : List String) (h : String) : List String :=
  if s.contains h then s else s ++ [h]

/-! ### Data model (`types/index.ts`, `storage/kv.ts`) -/

/-- Language tag, the TS union `'en' | 'zh'` of `i18n/index.ts`. -/
inductive Lang where
  | en
  | zh
deriving DecidableEq, Repr

/-- One upstream activity record (`types/index.ts` `Activity`). `type` is
the TS union `'TRADE' | 'REDEEM'` kept as a string exactly as the source
compares it; money fields are JS numbers, modelled as `ℚ`. -/
structure Activity where
  type : String
  side : Option String
  timestamp : Nat
  price : ℚ
  usdcSize : ℚ
  size : Option ℚ
  title : Option String
  outcome : Option String
  eventSlug : Option String
  slug : Option String
  transactionHash : Option String
deriving DecidableEq, Repr

/-- One stored subscription (`storage/kv.ts` `SubRecord`). `addedAt` is a
millisecond instant; the value `0` models the falsy legacy "missing
`addedAt`" that the scheduler tests with `sub.addedAt ?`. The source
field `alias` is spelled `aliasName` because `alias` is reserved in
Lean; an empty string models the falsy missing alias. -/
structure SubRecord where
  address : String
  aliasName : String
  addedAt : Nat
deriving DecidableEq, Repr

/-- Category filter (`{ mode: 'include' | 'exclude', categories: string[] }`).
The `kv.ts` revision defining it is not part of the snapshot, but the
shape is fully determined by its use in `SchedulerDO.checkSubscriptions`
(fields `mode`, compared against the string literals `'include'` and
`'exclude'`, and `categories`, a string array). -/
structure CategoryFilter where
  mode : String
  categories : List String
deriving DecidableEq, Repr

/-- Per-chat configuration (`storage/kv.ts` `UserConfig`), `filter`
optional as in the source. -/
structure UserConfig where
  lang : Lang
  threshold : ℚ
  filter : Option CategoryFilter
deriving DecidableEq, Repr

/-- Subscription tagged with its chat, the `{ ...sub, chatId }` spread
(`SubWithChat` in `SchedulerDO`). -/
structure SubWithChat where
  sub : SubRecord
  chatId : Int
deriving DecidableEq, Repr

/-- Pending message collected during one cycle (`PendingMessage` in
`SchedulerDO`); `txHash` is `activity.transactionHash || ''`. -/
structure PendingMessage where
  chatId : Int
  message : String
  timestamp : Nat
  address : String
  txHash : String
deriving DecidableEq, Repr

/-- The scheduler's in-memory cache (`Cache` in `SchedulerDO`), minus the
`initialized` bootstrap flag which is irrelevant to a single cycle. -/
structure Cache where
  userSubscriptions : List (Int × List SubRecord)
  userConfigs : List (Int × UserConfig)
  lastActivities : List (String × Nat)
  sentTxHashes : List String
deriving DecidableEq, Repr

/-! ### Leaf string helpers (`utils/format.ts`, `i18n`)

JS `String.prototype.toLowerCase`, `split` and `substring` act on UTF-16
units; the data they are applied to here (hex addresses and market slugs)
is ASCII, for which the char-level model below coincides. -/

/-- ASCII lowering of one char (the fragment of `toLowerCase` exercised by
addresses and slugs). -/
def charLower (c : Char) : Char :=
  if 65 ≤ c.toNat ∧ c.toNat ≤ 90 then Char.ofNat (c.toNat + 32) else c

/-- Model of `String.prototype.toLowerCase`. -/
def jsToLower (s : String) : String := String.mk (s.data.map charLower)

/-- Splitter for `String.prototype.split` with a one-char separator. -/
def splitChars (sep : Char) : List Char → List Char → List (List Char)
  | [], cur => [cur.reverse]
  | c :: rest, cur =>
    if c = sep then cur.reverse :: splitChars sep rest []
    else splitChars sep rest (c :: cur)

/-- Model of `slug.split('-')`; like in JS, the result is never empty
(`"".split('-')` is `[""]`). -/
def splitDash (s : String) : List String :=
  (splitChars '-' s.data []).map (fun cs => String.mk cs)

/-- Model of `utils/format.ts` `shortenAddress`: empty in, empty out;
otherwise the first six chars, an ellipsis, and the last four chars
(JS `substring` clamps out-of-range bounds exactly like `take`/`drop`
on `Nat` indices do). -/
def shortenAddress (address : String) : String :=
  if address = "" then ""
  else
    String.mk (address.data.take 6) ++ "..." ++
      String.mk (address.data.drop (address.data.length - 4))

/-- Model of `utils/format.ts` `escapeMarkdown`: falsy input gives `""`,
otherwise each of `_`, `*`, backtick and `[` is prefixed with a
backslash (`replace(/[_*`[]/g, '\\$&')`). -/
def escapeMarkdown (text : String) : String :=
  if text = "" then ""
  else
    String.mk (text.data.flatMap (fun c =>
      if c = '_' ∨ c = '*' ∨ c = Char.ofNat 96 ∨ c = '[' then ['\\', c]
      else [c]))

/-- Two-digit zero padding for date/decimal rendering. -/
def pad2 (n : Nat) : String :=
  if n < 10 then "0" ++ toString n else toString n

/-- Decimal rendering of `q * 10 ^ pow` with `digits` fraction digits,
computed from `q.num`/`q.den` with integer arithmetic only. It models the
composition of JS float scaling with `toFixed` / fixed-fraction
`toLocaleString` used by the renderer; the model truncates where IEEE
rounding may differ in the last digit, and omits the `en-US` thousands
grouping — presentation-only differences in a leaf formatter that no
scheduler behaviour depends on. -/
def ratFixed (q : ℚ) (pow digits : Nat) : String :=
  let scaled : Nat := q.num.natAbs * 10 ^ pow * 10 ^ digits / q.den
  let sign : String := if q.num < 0 then "-" else ""
  let whole : Nat := scaled / 10 ^ digits
  let frac : Nat := scaled % 10 ^ digits
  if digits = 0 then sign ++ toString whole
  else if digits = 2 then sign ++ toString whole ++ "." ++ pad2 frac
  else sign ++ toString whole ++ "." ++ toString frac

/-- Model of `utils/format.ts` `formatUSD` on a present numeric amount:
sign, dollar mark, two fraction digits. -/
def formatUSD (amount : ℚ) : String :=
  (if amount.num < 0 then "-" else "") ++ "$" ++ ratFixed amount 0 2

/-- Rendering of `formatUSD(a - b)` without rational arithmetic: the
difference is formed on numerators and denominators directly. -/
def formatUSDsub (a b : ℚ) : String :=
  let n : Int := a.num * (b.den : Int) - b.num * (a.den : Int)
  let d : Nat := a.den * b.den
  (if n < 0 then "-" else "") ++ "$" ++
    (toString (n.natAbs * 100 / d / 100) ++ "." ++ pad2 (n.natAbs * 100 / d % 100))

/-- Rendering of `+(((a / b) - 1) * 100).toFixed(1)` (the potential-profit
percentage of a buy message), again on numerators and denominators. -/
def formatPctGain (a b : ℚ) : String :=
  let n : Int := (a.num * (b.den : Int) - b.num * (a.den : Int)) * 1000
  let d : Int := b.num * (a.den : Int)
  let t10 : Nat := (n / d).natAbs
  "+" ++ (if n / d < 0 then "-" else "") ++
    toString (t10 / 10) ++ "." ++ toString (t10 % 10) ++ "%"

/-- Gregorian date from days since 1970-01-01 (the classic era/yoe
conversion, valid for the non-negative range a Unix timestamp produces). -/
def civilFromDays (days : Nat) : Nat × Nat × Nat :=
  let z := days + 719468
  let era := z / 146097
  let doe := z % 146097
  let yoe := (doe - doe / 1460 + doe / 36524 - doe / 146096) / 365
  let y := yoe + era * 400
  let doy := doe - (365 * yoe + yoe / 4 - yoe / 100)
  let mp := (5 * doy + 2) / 153
  let d := doy - (153 * mp + 2) / 5 + 1
  let m := if mp < 10 then mp + 3 else mp - 9
  (y + (if m ≤ 2 then 1 else 0), m, d)

/-- Model of `utils/format.ts` `formatTimestamp`: the ISO instant of
`timestamp` seconds with `T` replaced by a space, truncated to seconds,
plus a ` UTC` suffix. -/
def formatTimestamp (timestamp : Nat) : String :=
  let (y, m, d) := civilFromDays (timestamp / 86400)
  let secs := timestamp % 86400
  toString y ++ "-" ++ pad2 m ++ "-" ++ pad2 d ++ " " ++
    pad2 (secs / 3600) ++ ":" ++ pad2 (secs % 3600 / 60) ++ ":" ++
    pad2 (secs % 60) ++ " UTC"

/-- Model of the `i18n` lookup `t(lang, key)` restricted to the keys the
push-message renderer uses (`push.*` and `pos.unknown` from `en.ts` /
`zh.ts`); any other key falls back to the key itself, as `t` does for a
missing entry. -/
def t (lang : Lang) (key : String) : String :=
  match lang, key with
  | Lang.en, "push.buy" => "🟢 *BUY*"
  | Lang.en, "push.sell" => "🔴 *SELL*"
  | Lang.en, "push.redeem" => "✅ *REDEEM*"
  | Lang.en, "push.cost" => "Cost"
  | Lang.en, "push.received" => "Received"
  | Lang.en, "push.redeemed" => "Redeemed"
  | Lang.en, "push.shares" => "Shares"
  | Lang.en, "push.ifWin" => "If Win"
  | Lang.en, "push.market" => "Market"
  | Lang.en, "push.tx" => "Tx"
  | Lang.en, "pos.unknown" => "Unknown"
  | Lang.zh, "push.buy" => "🟢 *买入*"
  | Lang.zh, "push.sell" => "🔴 *卖出*"
  | Lang.zh, "push.redeem" => "✅ *赎回*"
  | Lang.zh, "push.cost" => "成本"
  | Lang.zh, "push.received" => "收到"
  | Lang.zh, "push.redeemed" => "赎回金额"
  | Lang.zh, "push.shares" => "Shares"
  | Lang.zh, "push.ifWin" => "若胜"
  | Lang.zh, "push.market" => "市场"
  | Lang.zh, "push.tx" => "交易"
  | Lang.zh, "pos.unknown" => "Unknown"
  | _, k => k

/-! ### Message renderer (`messages/format.ts`) -/

/-- Shared tail of every push message: timestamp line plus market and
transaction links. -/
def messageLinks (lang : Lang) (a : Activity) : String :=
  "⏰ " ++ formatTimestamp a.timestamp ++ "\n" ++
  "🔗 [" ++ t lang "push.market" ++ "](https://polymarket.com/event/" ++
    ((a.eventSlug).getD ((a.slug).getD "")) ++ ") | [" ++ t lang "push.tx" ++
    "](https://polygonscan.com/tx/" ++ (a.transactionHash).getD "" ++ ")"

/-- Model of `formatBuyMessage`. `activity.size?.toFixed(1) || '0'` keeps
`'0'` for a missing or zero size; `activity.size ? ... : '$0'` and the
`size && usdcSize` guard of the percentage are the JS truthiness tests on
the numbers. -/
def formatBuyMessage (a : Activity) (displayName address : String) (lang : Lang) : String :=
  let size := match a.size with
    | some s => if s = 0 then "0" else ratFixed s 0 1
    | none => "0"
  let potentialProfit := match a.size with
    | some s => if s = 0 then "$0" else formatUSDsub s a.usdcSize
    | none => "$0"
  let potentialPct := match a.size with
    | some s => if s ≠ 0 ∧ a.usdcSize ≠ 0 then formatPctGain s a.usdcSize else ""
    | none => ""
  t lang "push.buy" ++ " | [" ++ escapeMarkdown displayName ++
    "](https://polymarket.com/profile/" ++ address ++ ")\n\n" ++
  "📊 " ++ escapeMarkdown (match a.title with
    | some ti => if ti = "" then t lang "pos.unknown" else ti
    | none => t lang "pos.unknown") ++ "\n" ++
  "🎯 *" ++ escapeMarkdown ((a.outcome).getD "") ++ "* @ " ++ ratFixed a.price 2 1 ++ "%\n\n" ++
  "💵 " ++ t lang "push.cost" ++ ": " ++ formatUSD a.usdcSize ++ "\n" ++
  "🎫 " ++ t lang "push.shares" ++ ": " ++ size ++ "\n" ++
  "✨ " ++ t lang "push.ifWin" ++ ": " ++ potentialProfit ++ " (" ++ potentialPct ++ ")\n\n" ++
  messageLinks lang a

/-- Model of `formatSellMessage`. -/
def formatSellMessage (a : Activity) (displayName address : String) (lang : Lang) : String :=
  let size := match a.size with
    | some s => if s = 0 then "0" else ratFixed s 0 1
    | none => "0"
  t lang "push.sell" ++ " | [" ++ escapeMarkdown displayName ++
    "](https://polymarket.com/profile/" ++ address ++ ")\n\n" ++
  "📊 " ++ escapeMarkdown (match a.title with
    | some ti => if ti = "" then t lang "pos.unknown" else ti
    | none => t lang "pos.unknown") ++ "\n" ++
  "🎯 *" ++ escapeMarkdown ((a.outcome).getD "") ++ "* @ " ++ ratFixed a.price 2 1 ++ "%\n\n" ++
  "💵 " ++ t lang "push.received" ++ ": " ++ formatUSD a.usdcSize ++ "\n" ++
  "🎫 " ++ t lang "push.shares" ++ ": " ++ size ++ "\n\n" ++
  messageLinks lang a

/-- Model of `formatRedeemMessage`. -/
def formatRedeemMessage (a : Activity) (displayName address : String) (lang : Lang) : String :=
  t lang "push.redeem" ++ " | [" ++ escapeMarkdown displayName ++
    "](https://polymarket.com/profile/" ++ address ++ ")\n\n" ++
  "📊 " ++ escapeMarkdown (match a.title with
    | some ti => if ti = "" then t lang "pos.unknown" else ti
    | none => t lang "pos.unknown") ++ "\n" ++
  "💵 " ++ t lang "push.redeemed" ++ ": " ++ formatUSD a.usdcSize ++ "\n\n" ++
  messageLinks lang a

/-- Model of `formatActivityMessage`: buy or sell for a trade (the JS test
is `side === 'BUY'`), redeem message for a redeem, `null` otherwise. -/
def formatActivityMessage (a : Activity) (displayName address : String) (lang : Lang) :
    Option String :=
  if a.type = "TRADE" then
    if a.side = some "BUY" then some (formatBuyMessage a displayName address lang)
    else some (formatSellMessage a displayName address lang)
  else if a.type = "REDEEM" then some (formatRedeemMessage a displayName address lang)
  else none

/-! ### Upstream activity client (`api/polymarket.ts`) -/

/-- Options object passed to `getUserActivity` (`{ limit?, start?, ... }`);
a field is `none` when the caller's object literal has no such key. -/
structure ActivityOptions where
  limit : Option Nat
  start : Option Nat
deriving DecidableEq, Repr

/-- Query parameters of the `/activity` request after `polymarketRequest`
drops `undefined`/`null` values; `sortKind`/`sortDirection` mirror the
`sortBy`/`sortDirection` params. -/
structure ActivityParams where
  user : String
  type : String
  limit : Option Nat
  sortKind : String
  sortDirection : String
  start : Option Nat
deriving DecidableEq, Repr

/-- Parameter assembly of `getUserActivity`: the literal sets
`limit: options.limit || 20` and then spreads `...options` after it, so a
`limit` key present in the options (even a falsy `0`) overrides the
default while an absent key leaves `20`; net effect `options.limit ?? 20`.
The scheduler never passes `limit`, so its requests carry `limit=20`. -/
def getUserActivityParams (address : String) (options : ActivityOptions) : ActivityParams :=
  { user := address
    type := "TRADE,REDEEM"
    limit := some (match options.limit with
      | some l => l
      | none => 20)
    sortKind := "TIMESTAMP"
    sortDirection := "DESC"
    start := options.start }

/-- The HTTP transport behind `polymarketRequest`, abstracted: a function
from the address and the assembled query to the decoded activity list. -/
def getUserActivity (apiTransport : String → ActivityParams → List Activity)
    (address : String) (options : ActivityOptions) : List Activity :=
  apiTransport address (getUserActivityParams address options)

/-! ### One poll cycle (`SchedulerDO.checkSubscriptions`) -/

/-- The "new activity" filter predicate of `checkSubscriptions`
(lines 277-295): strictly newer events are kept unless their transaction
hash was already sent; an event exactly at the watermark is kept only
when the sent-set is non-empty and the event carries a hash not in it;
everything else is dropped. `a.transactionHash &&` is the JS truthiness
test modelled by the `Option`. -/
def isNewActivity (lastActivity : Nat) (sentSet : List String) (a : Activity) : Bool :=
  if lastActivity < a.timestamp then
    match a.transactionHash with
    | some h => if setHas sentSet h then false else true
    | none => true
  else
    match a.transactionHash with
    | some h =>
      if a.timestamp = lastActivity ∧ 0 < sentSet.length then ! setHas sentSet h
      else false
    | none => false

/-- Per-cycle deduplication by transaction hash (lines 299-305): an event
without a hash always passes; a hash passes only on first sight. -/
def dedupByTx : List Activity → List String → List Activity
  | [], _ => []
  | a :: rest, seen =>
    match a.transactionHash with
    | none => a :: dedupByTx rest seen
    | some h =>
      if seen.contains h then dedupByTx rest seen
      else a :: dedupByTx rest (h :: seen)

/-- Specification companion of `dedupByTx`: the seen-hash accumulator
after scanning a list. -/
def seenAfter : List Activity → List String → List String
  | [], seen => seen
  | a :: rest, seen =>
    match a.transactionHash with
    | none => seenAfter rest seen
    | some h => if seen.contains h then seenAfter rest seen else seenAfter rest (h :: seen)

/-- Stable insertion of one element into a list already sorted by `key`
ascending, placing it after all elements with a smaller-or-equal key. -/
def insertByKey {α : Type} (key : α → Nat) (x : α) : List α → List α
  | [] => [x]
  | y :: ys => if key y ≤ key x then y :: insertByKey key x ys else x :: y :: ys

/-- Model of `list.sort((a, b) => a.key - b.key)`: a stable ascending sort
(ECMAScript `Array.prototype.sort` is stable). -/
def sortByKey {α : Type} (key : α → Nat) (l : List α) : List α :=
  l.foldl (fun acc x => insertByKey key x acc) []

/-- Address grouping of lines 229-238: every subscription of every chat is
appended under its lowercased address, in chat-then-subscription order. -/
def buildAddressMap (subs : List (Int × List SubRecord)) : List (String × List SubWithChat) :=
  subs.foldl (fun m p =>
    p.2.foldl (fun m' s => mapAppend m' (jsToLower s.address) ⟨s, p.1⟩) m) []

/-- All subscriptions tagged with their chat, flattened in iteration
order (specification companion of `buildAddressMap`). -/
def allSubsWithChat (subs : List (Int × List SubRecord)) : List SubWithChat :=
  subs.flatMap (fun p => p.2.map (fun s => ⟨s, p.1⟩))

/-- The subscriptions that `buildAddressMap` groups under one address. -/
def subsForAddr (subs : List (Int × List SubRecord)) (addr : String) : List SubWithChat :=
  (allSubsWithChat subs).filter (fun sw => jsToLower sw.sub.address = addr)

/-- Default config used when a chat has none (`{ lang: 'en', threshold: 10 }`,
no filter). -/
def defaultConfig : UserConfig := { lang := Lang.en, threshold := 10, filter := none }

/-- Per-chat data the notification loop needs (the `subInfoMap` record of
lines 310-322). -/
structure SubInfo where
  displayName : String
  lang : Lang
  addedAtSec : Nat
  threshold : ℚ
  filter : Option CategoryFilter
deriving DecidableEq, Repr

/-- Construction of one `subInfoMap` entry: display name falls back from
a falsy alias to the shortened address, `addedAtSec` is
`Math.floor(addedAt / 1000)` or `0` for falsy legacy `addedAt`, and the
config defaults apply per chat. -/
def mkSubInfo (configs : List (Int × UserConfig)) (shortAddr : String) (sw : SubWithChat) :
    SubInfo :=
  let cfg := (alookup configs sw.chatId).getD defaultConfig
  { displayName := if sw.sub.aliasName = "" then shortAddr else sw.sub.aliasName
    lang := cfg.lang
    addedAtSec := if sw.sub.addedAt ≠ 0 then sw.sub.addedAt / 1000 else 0
    threshold := cfg.threshold
    filter := cfg.filter }

/-- First-wins per-chat map of lines 311-322 (`if (!subInfoMap.has(...))`). -/
def buildSubInfoMap (configs : List (Int × UserConfig)) (shortAddr : String)
    (subs : List SubWithChat) : List (Int × SubInfo) :=
  subs.foldl (fun m sw =>
    match alookup m sw.chatId with
    | some _ => m
    | none => m ++ [(sw.chatId, mkSubInfo configs shortAddr sw)]) []

/-- Derived event category, `activity.slug?.split('-')[0]?.toLowerCase() || ''`:
the first dash-separated segment of the slug, lowercased, with every
missing step collapsing to the empty string. -/
def slugCategory (slug : Option String) : String :=
  jsToLower (((splitDash (slug.getD "")).headD ""))

/-- Category-filter rejection test of lines 331-336: with a filter whose
category list is non-empty, an `include` filter suppresses a non-matching
category and an `exclude` filter suppresses a matching one. -/
def categoryBlocked (filter : Option CategoryFilter) (a : Activity) : Bool :=
  match filter with
  | none => false
  | some f =>
    if 0 < f.categories.length then
      let matched := f.categories.contains (slugCategory a.slug)
      if f.mode = "include" ∧ ¬ matched = true then true
      else if f.mode = "exclude" ∧ matched = true then true
      else false
    else false

/-- The per-(activity, chat) policy of lines 324-349: only trades, only
events strictly after the chat's subscription second, only amounts at or
above a positive threshold, only categories the filter admits; then the
rendered message, when truthy, becomes a pending message carrying
`transactionHash || ''`. -/
def pendingFor (address : String) (a : Activity) (chatId : Int) (info : SubInfo) :
    Option PendingMessage :=
  if a.type ≠ "TRADE" then none
  else if a.timestamp ≤ info.addedAtSec then none
  else if 0 < info.threshold ∧ a.usdcSize < info.threshold then none
  else if categoryBlocked info.filter a then none
  else
    match formatActivityMessage a info.displayName address info.lang with
    | none => none
    | some m =>
      if m = "" then none
      else some { chatId := chatId, message := m, timestamp := a.timestamp,
                  address := address, txHash := (a.transactionHash).getD "" }

/-- Pending messages one activity generates across the chats of its
address group, in `subInfoMap` iteration order. -/
def pendingOfActivity (address : String) (subInfoMap : List (Int × SubInfo)) (a : Activity) :
    List PendingMessage :=
  subInfoMap.filterMap (fun p => pendingFor address a p.1 p.2)

/-- Result of processing one address group. -/
structure AddrOut where
  la : List (String × Nat)
  pending : List PendingMessage
  processed : Nat
  calls : List (String × ActivityParams)
deriving DecidableEq, Repr

/-- Model of `processAddress` (lines 256-355): read the watermark, derive
the fetch lower bound (watermark minus one second, else the earliest
valid `addedAt`; with neither, initialize the watermark to `now` and skip
the fetch), fetch, filter by `isNewActivity`, dedup by hash, sort
ascending by timestamp, and evaluate the per-chat policy on each
activity. `calls` records every upstream invocation with its assembled
query. The `catch` of the source only swallows transport errors, which
the total `apiTransport` parameter does not produce. -/
def processAddress (apiTransport : String → ActivityParams → List Activity) (now : Nat)
    (configs : List (Int × UserConfig)) (sentSet : List String)
    (la : List (String × Nat)) (address : String) (subs : List SubWithChat) : AddrOut :=
  let lastActivity := (alookup la address).getD 0
  let apiStart0 := if 0 < lastActivity then lastActivity - 1 else 0
  let run : Nat → AddrOut := fun apiStart =>
    let params := getUserActivityParams address { limit := none, start := some apiStart }
    let activities := apiTransport address params
    let filtered := activities.filter (isNewActivity lastActivity sentSet)
    if filtered.isEmpty then { la := la, pending := [], processed := 0, calls := [(address, params)] }
    else
      let newActivities := sortByKey (fun a => a.timestamp) (dedupByTx filtered [])
      let subInfoMap := buildSubInfoMap configs (shortenAddress address) subs
      { la := la
        pending := newActivities.flatMap (pendingOfActivity address subInfoMap)
        processed := newActivities.length
        calls := [(address, params)] }
  if apiStart0 = 0 then
    match (subs.filter (fun s => s.sub.addedAt ≠ 0)).map (fun s => s.sub.addedAt / 1000) with
    | [] => { la := aset la address now, pending := [], processed := 0, calls := [] }
    | v :: vs => run (vs.foldl min v)
  else run apiStart0

/-- Accumulated state of the per-address phase. -/
structure Phase1Out where
  la : List (String × Nat)
  pending : List PendingMessage
  processed : Nat
  calls : List (String × ActivityParams)
deriving DecidableEq, Repr

/-- All address groups processed in order (the sequential linearization
of `parallelLimit(addressEntries, processAddress, 10)`). -/
def processAll (apiTransport : String → ActivityParams → List Activity) (now : Nat)
    (configs : List (Int × UserConfig)) (sentSet : List String)
    (la0 : List (String × Nat)) (entries : List (String × List SubWithChat)) : Phase1Out :=
  entries.foldl (fun acc e =>
    let r := processAddress apiTransport now configs sentSet acc.la e.1 e.2
    { la := r.la
      pending := acc.pending ++ r.pending
      processed := acc.processed + r.processed
      calls := acc.calls ++ r.calls })
    { la := la0, pending := [], processed := 0, calls := [] }

/-- Grouping of pending messages by the `` `${chatId}:${address}` `` key
(lines 383-392), modelled by the pair key. -/
def groupByChatAddr (msgs : List PendingMessage) : List ((Int × String) × List PendingMessage) :=
  msgs.foldl (fun m msg => mapAppend m (msg.chatId, msg.address) msg) []

/-- Fuel-driven splitter behind `chunksOf` (structural recursion so that
concrete runs reduce definitionally); the fuel is an upper bound on the
number of chunks. -/
def chunksOfAux {α : Type} (n : Nat) : Nat → List α → List (List α)
  | 0, _ => []
  | _, [] => []
  | fuel + 1, x :: rest => (x :: rest.take (n - 1)) :: chunksOfAux n fuel (rest.drop (n - 1))

/-- Batch splitting: consecutive runs of at most `n` messages
(`group.slice(i, i + MAX_ACTIVITIES_PER_MSG)`). -/
def chunksOf {α : Type} (n : Nat) (l : List α) : List (List α) :=
  chunksOfAux n l.length l

/-- State threaded through the send loop of lines 400-426. -/
structure DeliverState where
  la : List (String × Nat)
  sentTx : List String
  delivered : List (Int × String)
  notified : Nat
  idx : Nat
deriving DecidableEq, Repr

/-- The separator joining the messages of one merged batch. -/
def SEPARATOR : String := "\n\n\n\n"

/-- One iteration of the send loop: build the merged message, attempt the
send (`sendTelegram` reports an ordinary Telegram failure by returning
`false` rather than throwing; `sendOk` gives the outcome of the `idx`-th
send of the cycle), and only on success record the batch's transaction
hashes and raise the address watermark to the batch's maximum timestamp
when that is greater. A failed send changes nothing but the send index. -/
def sendBatch (sendOk : Nat → Bool) (st : DeliverState) (batch : List PendingMessage) :
    DeliverState :=
  match batch with
  | [] => { st with idx := st.idx + 1 }
  | m0 :: ms =>
    let mergedMessage := String.intercalate SEPARATOR (batch.map (fun m => m.message))
    if sendOk st.idx then
      let sentTx' := batch.foldl (fun s m => if m.txHash ≠ "" then setAdd s m.txHash else s) st.sentTx
      let maxTimestamp := ms.foldl (fun acc m => max acc m.timestamp) m0.timestamp
      let currentLast := (alookup st.la m0.address).getD 0
      { la := if currentLast < maxTimestamp then aset st.la m0.address maxTimestamp else st.la
        sentTx := sentTx'
        delivered := st.delivered ++ [(m0.chatId, mergedMessage)]
        notified := st.notified + 1
        idx := st.idx + 1 }
    else { st with idx := st.idx + 1 }

/-- The whole send loop over the flattened batch list. -/
def deliverBatches (sendOk : Nat → Bool) (st : DeliverState)
    (batches : List (List PendingMessage)) : DeliverState :=
  batches.foldl (sendBatch sendOk) st

/-- Orphan TTL, 90 days of seconds. -/
def TTL : Nat := 86400 * 90

/-- Orphan eviction of lines 434-439: drop a watermark entry whose address
nobody subscribes to once it is older than the TTL. In JS `now - ts` can
be negative and then never exceeds the TTL; truncated `Nat` subtraction
gives `0` with the same comparison outcome. -/
def evictOrphans (validAddresses : List String) (now : Nat) (la : List (String × Nat)) :
    List (String × Nat) :=
  la.filter (fun p => validAddresses.contains p.1 || decide (now - p.2 ≤ TTL))

/-- Retention cap of line 442, `[...set].slice(-1000)`. -/
def keepLast {α : Type} (n : Nat) (l : List α) : List α := l.drop (l.length - n)

/-- Observable outcome of one cycle: the persisted watermark map and
sent-hash list, the delivered (chat, merged text) sends, the returned
counters, the collected pending messages, the batch list, and the log of
upstream calls. -/
structure CycleOut where
  lastActivities : List (String × Nat)
  sentTxHashes : List String
  delivered : List (Int × String)
  pending : List PendingMessage
  batches : List (List PendingMessage)
  total : Nat
  addresses : Nat
  processed : Nat
  notified : Nat
  calls : List (String × ActivityParams)
deriving DecidableEq, Repr

/-- Model of `checkSubscriptions`: the zero-subscription fast path, address
grouping, per-address fetch/filter/policy phase, global stable sort of
pending messages by timestamp, grouping into per-(chat, address) batches
of five, the serial send loop, orphan eviction, and the sent-hash cap.
`now` is `Math.floor(Date.now() / 1000)` for this cycle. -/
def checkSubscriptions (apiTransport : String → ActivityParams → List Activity)
    (sendOk : Nat → Bool) (now : Nat) (cache : Cache) : CycleOut :=
  if cache.userSubscriptions.isEmpty then
    { lastActivities := cache.lastActivities
      sentTxHashes := cache.sentTxHashes
      delivered := []
      pending := []
      batches := []
      total := 0
      addresses := 0
      processed := 0
      notified := 0
      calls := [] }
  else
    let totalSubs := cache.userSubscriptions.foldl (fun n p => n + p.2.length) 0
    let addressMap := buildAddressMap cache.userSubscriptions
    let validAddresses := keysOf addressMap
    let p1 := processAll apiTransport now cache.userConfigs cache.sentTxHashes
      cache.lastActivities addressMap
    let sortedPending := sortByKey (fun m => m.timestamp) p1.pending
    let groups := groupByChatAddr sortedPending
    let batches := groups.flatMap (fun g => chunksOf 5 g.2)
    let stF := deliverBatches sendOk
      { la := p1.la, sentTx := cache.sentTxHashes, delivered := [], notified := 0, idx := 0 }
      batches
    { lastActivities := evictOrphans validAddresses now stF.la
      sentTxHashes := keepLast 1000 stF.sentTx
      delivered := stF.delivered
      pending := sortedPending
      batches := batches
      total := totalSubs
      addresses := addressMap.length
      processed := p1.processed
      notified := stF.notified
      calls := p1.calls }

/-! ### Scheduling driver (`SchedulerDO.alarm`) -/

/-- Default tick interval, 10 seconds of milliseconds. -/
def DEFAULT_CHECK_INTERVAL_MS : Nat := 10000

/-- The interval getter `parseInt(env.CHECK_INTERVAL_MS || '', 10) || 10_000`:
an unset or unparsable variable, and a parsed falsy `0`, fall back to the
default. -/
def checkIntervalMs (envValue : Option Nat) : Nat :=
  match envValue with
  | some v => if v = 0 then DEFAULT_CHECK_INTERVAL_MS else v
  | none => DEFAULT_CHECK_INTERVAL_MS

/-- Outcome of the guarded body of `alarm`: either the cycle finished
after `elapsedMs`, or an exception escaped after `elapsedMs`. -/
inductive CycleOutcome where
  | success (elapsedMs : Nat)
  | failure (elapsedMs : Nat)
deriving DecidableEq, Repr

/-- The alarm instant `SchedulerDO.alarm` stores before returning
(lines 67-89): after a normal cycle the current time plus
`max(intervalMs - elapsed, 1000)` (the `Nat` subtraction truncates
exactly where `Math.max` would pick the floor anyway); after a caught
exception the current time plus the full interval. In both branches the
current time is `startTime + elapsedMs`. -/
def alarmNextAlarm (intervalMs startTime : Nat) : CycleOutcome → Option Nat
  | CycleOutcome.success e => some (startTime + e + max (intervalMs - e) 1000)
  | CycleOutcome.failure e => some (startTime + e + intervalMs)

/-- Number of upstream calls a cycle's call log contains for one
address. -/
def callCount (calls : List (String × ActivityParams)) (addr : String) : Nat :=
  (calls.filter (fun c => c.1 = addr)).length

/-- The defer condition of `processAddress` read off the pre-cycle cache:
the fetch lower bound computes to 0 (no watermark, or a watermark of 1)
and no subscriber of the address has a valid `addedAt`; in that case the
cycle initializes the watermark and skips the upstream fetch. -/
def legacySkip (cache : Cache) (addr : String) : Bool :=
  let lastActivity := (alookup cache.lastActivities addr).getD 0
  let apiStart0 := if 0 < lastActivity then lastActivity - 1 else 0
  decide (apiStart0 = 0) &&
    ((subsForAddr cache.userSubscriptions addr).filter
      (fun s => s.sub.addedAt ≠ 0)).isEmpty

/-! ### Concrete instances used by witnesses and counterexamples -/

/-- A qualifying trade event: timestamp 100, notional 20, hash `h`. -/
def exTrade : Activity :=
  { type := "TRADE", side := some "BUY", timestamp := 100, price := 1, usdcSize := 20,
    size := some 40, title := some "T", outcome := some "Yes", eventSlug := none,
    slug := some "nba-x", transactionHash := some "h" }

/-- Two chats subscribed to the same address (differing only in case),
watermark 50, no sent hashes. -/
def exCacheTwoChats : Cache :=
  { userSubscriptions := [(1, [⟨"0xA", "", 20000⟩]), (2, [⟨"0xa", "w", 20000⟩])]
    userConfigs := []
    lastActivities := [("0xa", 50)]
    sentTxHashes := [] }

/-- Send outcome failing exactly the first send of the cycle. -/
def exSendFailFirst : Nat → Bool := fun i => decide (i ≠ 0)

/-- Cycle run in which chat 1's batch fails and chat 2's batch (same
address, same event) succeeds. -/
def exOutFailFirst : CycleOut :=
  checkSubscriptions (fun _ _ => [exTrade]) exSendFailFirst 1000 exCacheTwoChats

/-- A pending message for the delivery-step witnesses. -/
def exMsg : PendingMessage :=
  { chatId := 1, message := "m", timestamp := 100, address := "0xa", txHash := "h" }

/-- A delivery state before any send. -/
def exSt : DeliverState :=
  { la := [("0xa", 50)], sentTx := [], delivered := [], notified := 0, idx := 0 }

/-- A one-chat cache with a legacy subscription (no `addedAt`) and no
watermark: the cycle defers the address without fetching. -/
def exCacheLegacy : Cache :=
  { userSubscriptions := [(1, [⟨"0xB", "", 0⟩]), (2, [⟨"0xb", "", 0⟩])]
    userConfigs := []
    lastActivities := []
    sentTxHashes := [] }

/-- Cycle run on the legacy cache: the subscribed address is never
fetched and its watermark is initialized to `now`. -/
def exOutLegacy : CycleOut :=
  checkSubscriptions (fun _ _ => [exTrade]) (fun _ => true) 1000 exCacheLegacy

/-- A single-chat cache with an established watermark, for plain
successful-cycle witnesses. -/
def exCacheOne : Cache :=
  { userSubscriptions := [(7, [⟨"0xA", "", 20000⟩])]
    userConfigs := []
    lastActivities := [("0xa", 50)]
    sentTxHashes := [] }

/-- Successful cycle on the one-chat cache. -/
def exOutOne : CycleOut :=
  checkSubscriptions (fun _ _ => [exTrade]) (fun _ => true) 1000 exCacheOne

/-- The same cycle with the upstream list replayed twice. -/
def exOutOneDup : CycleOut :=
  checkSubscriptions (fun _ _ => [exTrade, exTrade]) (fun _ => true) 1000 exCacheOne

/-- The rational 49.99 (`4999/100` in lowest terms). -/
def q4999over100 : ℚ := ⟨4999, 100, by decide, by decide⟩

/-- Subscriber data with threshold 50 and no category filter. -/
def exInfoT50 : SubInfo :=
  { displayName := "d", lang := Lang.en, addedAtSec := 10, threshold := 50, filter := none }

/-- Subscriber data with an include-nba category filter and threshold 0. -/
def exInfoNba : SubInfo :=
  { displayName := "d", lang := Lang.en, addedAtSec := 10, threshold := 0,
    filter := some { mode := "include", categories := ["nba"] } }

/-! ### Helper lemmas on the association-list model -/

theorem alookup_aset_self {κ α : Type} [DecidableEq κ] (l : List (κ × α)) (k : κ) (v : α) :
    alookup (aset l k v) k = some v := by
  induction l with
  | nil => simp [aset, alookup]
  | cons p rest ih =>
    obtain ⟨k', v'⟩ := p
    by_cases h : k' = k
    · simp [aset, alookup, h]
    · simp [aset, alookup, h, ih]

theorem alookup_aset_ne {κ α : Type} [DecidableEq κ] (l : List (κ × α)) (k k' : κ) (v : α)
    (h : k' ≠ k) : alookup (aset l k v) k' = alookup l k' := by
  have h2 : ¬ (k = k') := Ne.symm h
  induction l with
  | nil => simp [aset, alookup, h2]
  | cons p rest ih =>
    obtain ⟨k₀, v₀⟩ := p
    by_cases h0 : k₀ = k
    · subst h0
      simp only [aset, if_pos rfl, alookup, if_neg h2]
    · by_cases h1 : k₀ = k'
      · subst h1
        simp [aset, alookup, h0]
      · simp only [aset, if_neg h0, alookup, if_neg h1]
        exact ih

theorem alookup_isSome_aset {κ α : Type} [DecidableEq κ] (l : List (κ × α)) (k k' : κ) (v : α)
    (h : (alookup l k').isSome) : (alookup (aset l k v) k').isSome := by
  by_cases hk : k' = k
  · subst hk
    simp [alookup_aset_self]
  · rwa [alookup_aset_ne l k k' v hk]

theorem mem_of_alookup_eq_some {κ α : Type} [DecidableEq κ] {l : List (κ × α)} {k : κ}
    {v : α} (h : alookup l k = some v) : (k, v) ∈ l := by
  induction l with
  | nil => simp [alookup] at h
  | cons q rest ih =>
    obtain ⟨k₀, v₀⟩ := q
    by_cases hk : k₀ = k
    · subst hk
      simp only [alookup, if_pos rfl] at h
      cases h
      exact List.mem_cons_self _ _
    · simp only [alookup, if_neg hk] at h
      exact List.mem_cons_of_mem _ (ih h)

theorem alookup_filter {κ α : Type} [DecidableEq κ] (p : κ × α → Bool) (l : List (κ × α))
    (k : κ) (v v' : α) (h : alookup l k = some v) (h' : alookup (l.filter p) k = some v') :
    v = v' ∨ (p (k, v) = false ∧ p (k, v') = true) := by
  induction l with
  | nil => simp [alookup] at h
  | cons q rest ih =>
    obtain ⟨k₀, v₀⟩ := q
    by_cases hk : k₀ = k
    · subst hk
      simp only [alookup, if_pos rfl] at h
      cases h
      by_cases hp : p (k₀, v) = true
      · rw [List.filter_cons_of_pos hp] at h'
        simp only [alookup, if_pos rfl] at h'
        cases h'
        exact Or.inl rfl
      · rw [List.filter_cons_of_neg hp] at h'
        refine Or.inr ⟨by simpa using hp, ?_⟩
        exact List.of_mem_filter (mem_of_alookup_eq_some h')
    · simp only [alookup, if_neg hk] at h
      by_cases hp : p (k₀, v₀) = true
      · rw [List.filter_cons_of_pos hp] at h'
        simp only [alookup, if_neg hk] at h'
        exact ih h h'
      · rw [List.filter_cons_of_neg hp] at h'
        exact ih h h'

theorem alookup_mapAppend {κ α : Type} [DecidableEq κ] (m : List (κ × List α)) (k k' : κ)
    (v : α) :
    alookup (mapAppend m k v) k' =
      if k' = k then some ((alookup m k).getD [] ++ [v]) else alookup m k' := by
  induction m with
  | nil =>
    by_cases h : k' = k
    · subst h
      simp [mapAppend, alookup]
    · have h2 : ¬ (k = k') := Ne.symm h
      simp [mapAppend, alookup, h, h2]
  | cons p rest ih =>
    obtain ⟨k₀, vs₀⟩ := p
    by_cases h0 : k₀ = k
    · subst h0
      by_cases h1 : k' = k₀
      · subst h1
        simp [mapAppend, alookup]
      · have h2 : ¬ (k₀ = k') := Ne.symm h1
        simp [mapAppend, alookup, h1, h2]
    · by_cases h1 : k₀ = k'
      · subst h1
        have h2 : ¬ (k₀ = k) := h0
        simp [mapAppend, alookup, h2, Ne.symm h0]
      · simp only [mapAppend, if_neg h0, alookup, if_neg h1]
        rw [ih]

/-! ### Renderer facts -/

theorem data_append_ne {x y : String} (h : x.data ≠ []) : (x ++ y).data ≠ [] := by
  rw [String.data_append]
  intro he
  rcases List.append_eq_nil.mp he with ⟨h1, _⟩
  exact h h1

theorem ne_empty_of_data_ne {s : String} (h : s.data ≠ []) : s ≠ "" := by
  intro he
  subst he
  exact h rfl

/-- A rendered trade message exists and is truthy: `formatActivityMessage`
returns a buy or sell text for every `TRADE`, and that text starts with a
non-empty i18n tag, so the `if (message)` push test passes. -/
theorem formatActivityMessage_trade (a : Activity) (dn addr : String) (lang : Lang)
    (htrade : a.type = "TRADE") :
    ∃ m, formatActivityMessage a dn addr lang = some m ∧ m ≠ "" := by
  unfold formatActivityMessage
  rw [if_pos htrade]
  by_cases hside : a.side = some "BUY"
  · rw [if_pos hside]
    refine ⟨_, rfl, ne_empty_of_data_ne ?_⟩
    simp only [formatBuyMessage]
    repeat' apply data_append_ne
    cases lang <;> decide
  · rw [if_neg hside]
    refine ⟨_, rfl, ne_empty_of_data_ne ?_⟩
    simp only [formatSellMessage]
    repeat' apply data_append_ne
    cases lang <;> decide

/-! ### Claim theorems -/

/-- Claim C1: in a poll cycle, for an address with persisted watermark
`lastSeen` and recent-transaction-id set `S`, a fetched event is treated
as new if and only if either its event time is strictly greater than
`lastSeen` and its transaction id, when present, is not already in `S`,
or its event time equals `lastSeen`, `S` is non-empty, the event has a
transaction id, and that id is not in `S`; every event with event time
below `lastSeen` is discarded. -/
theorem c1_new_event_predicate :
    (∀ (lastSeen : Nat) (S : List String) (a : Activity),
      isNewActivity lastSeen S a = true ↔
        ((lastSeen < a.timestamp ∧ ∀ h, a.transactionHash = some h → h ∉ S) ∨
         (a.timestamp = lastSeen ∧ S ≠ [] ∧
           ∃ h, a.transactionHash = some h ∧ h ∉ S))) ∧
    (∀ (lastSeen : Nat) (S : List String) (a : Activity),
      a.timestamp < lastSeen → isNewActivity lastSeen S a = false) := by
  have hmem : ∀ (S : List String) (h : String), setHas S h = true ↔ h ∈ S := by
    intro S h
    exact List.elem_iff
  have hmain : ∀ (lastSeen : Nat) (S : List String) (a : Activity),
      isNewActivity lastSeen S a = true ↔
        ((lastSeen < a.timestamp ∧ ∀ h, a.transactionHash = some h → h ∉ S) ∨
         (a.timestamp = lastSeen ∧ S ≠ [] ∧
           ∃ h, a.transactionHash = some h ∧ h ∉ S)) := by
    intro lastSeen S a
    unfold isNewActivity
    by_cases hlt : lastSeen < a.timestamp
    · rw [if_pos hlt]
      have hne : ¬ a.timestamp = lastSeen := by omega
      cases htx : a.transactionHash with
      | none => simp [hlt, hne]
      | some h =>
        by_cases hc : setHas S h = true
        · have : h ∈ S := (hmem S h).mp hc
          simp [hc, hlt, hne, this]
        · have : h ∉ S := fun hmem' => hc ((hmem S h).mpr hmem')
          simp [hc, hlt, hne, this]
    · rw [if_neg hlt]
      cases htx : a.transactionHash with
      | none => simp [hlt]
      | some h =>
        by_cases heq : a.timestamp = lastSeen
        · by_cases hS : 0 < S.length
          · have hSne : S ≠ [] := List.length_pos.mp hS
            by_cases hc : setHas S h = true
            · have hin : h ∈ S := (hmem S h).mp hc
              simp [hc, heq, hlt, hin, hS]
            · have hnotm : h ∉ S := fun hmem' => hc ((hmem S h).mpr hmem')
              have hcf : setHas S h = false := by
                cases hv : setHas S h with
                | true => exact absurd hv hc
                | false => rfl
              simp [hcf, heq, hlt, hS, hSne, hnotm]
          · have hSe : S = [] := by
              cases S with
              | nil => rfl
              | cons x xs => exact absurd (by simp) hS
            simp [hlt, hSe]
        · simp [hlt, heq]
  refine ⟨hmain, ?_⟩
  intro lastSeen S a hbelow
  cases hv : isNewActivity lastSeen S a with
  | false => rfl
  | true =>
    rcases (hmain lastSeen S a).mp hv with ⟨hlt, _⟩ | ⟨heq, _⟩
    · omega
    · omega

/-- Claim C1 witness: at watermark 5, sent set `["a"]`, the concrete
trade at timestamp 3 is discarded. -/
theorem c1_witness : isNewActivity 5 ["a"] { exTrade with timestamp := 3 } = false :=
  c1_new_event_predicate.2 5 ["a"] { exTrade with timestamp := 3 } (by decide)

/-- Claim C6: after every invocation of the scheduler's tick handler a
next tick is armed: after a normal cycle at delay
`max(intervalMs - elapsed, 1000)` (so never below the one-second floor),
after an escaped exception at the full interval; in no case is the
stored alarm absent. -/
theorem c6_tick_always_rearmed :
    (∀ (intervalMs startTime : Nat) (o : CycleOutcome),
      (alarmNextAlarm intervalMs startTime o).isSome = true) ∧
    (∀ intervalMs startTime e,
      alarmNextAlarm intervalMs startTime (CycleOutcome.success e) =
        some (startTime + e + max (intervalMs - e) 1000) ∧
      1000 ≤ max (intervalMs - e) 1000) ∧
    (∀ intervalMs startTime e,
      alarmNextAlarm intervalMs startTime (CycleOutcome.failure e) =
        some (startTime + e + intervalMs)) := by
  refine ⟨?_, ?_, ?_⟩
  · intro i s o
    cases o <;> rfl
  · intro i s e
    exact ⟨rfl, Nat.le_max_right _ _⟩
  · intro i s e
    rfl

/-- Claim C3 counterexample: chats 1 and 2 watch the same address; the
cycle builds one batch per chat for the same event (timestamp 100,
transaction id `h`), the first send fails and the second succeeds.
Contrary to the claim, the failed batch's transaction id ends up
recorded, the address watermark is advanced to the failed batch's
maximum event time, and the event is no longer "new" on a later cycle,
so it is never re-sent to chat 1. -/
theorem c3_counterexample :
    (exOutFailFirst.batches.map (fun b => b.map (fun m => m.txHash))) = [["h"], ["h"]] ∧
    (exOutFailFirst.batches.map (fun b => b.map (fun m => m.chatId))) = [[1], [2]] ∧
    exSendFailFirst 0 = false ∧
    exOutFailFirst.sentTxHashes = ["h"] ∧
    alookup exOutFailFirst.lastActivities "0xa" = some 100 ∧
    isNewActivity 100 exOutFailFirst.sentTxHashes exTrade = false := by
  decide

/-- Claim C3 as amended: a failed batch send contributes nothing — the
watermark map, the recorded transaction ids, the delivered list and the
notified counter are unchanged by that send — and the loop then
processes the remaining batches from that same state, so the failure
does not block them. (Unless another successful batch of the same cycle
covers the same address and events, they stay ahead of the watermark
and are re-sent in a later cycle.) -/
theorem c3_failed_send_contributes_nothing (sendOk : Nat → Bool) (st : DeliverState)
    (b : List PendingMessage) (bs : List (List PendingMessage))
    (hfail : sendOk st.idx = false) :
    (sendBatch sendOk st b).la = st.la ∧
    (sendBatch sendOk st b).sentTx = st.sentTx ∧
    (sendBatch sendOk st b).delivered = st.delivered ∧
    (sendBatch sendOk st b).notified = st.notified ∧
    deliverBatches sendOk st (b :: bs) =
      deliverBatches sendOk (sendBatch sendOk st b) bs := by
  have hstep : deliverBatches sendOk st (b :: bs) =
      deliverBatches sendOk (sendBatch sendOk st b) bs := rfl
  cases b with
  | nil => exact ⟨rfl, rfl, rfl, rfl, hstep⟩
  | cons m0 ms =>
    have hskip : sendBatch sendOk st (m0 :: ms) = { st with idx := st.idx + 1 } := by
      simp [sendBatch, hfail]
    rw [hskip] at hstep ⊢
    exact ⟨rfl, rfl, rfl, rfl, hstep⟩

/-- Claim C3 witness: the amended statement applied to a concrete failing
send over one batch. -/
theorem c3_witness :
    (sendBatch (fun _ => false) exSt [exMsg]).la = exSt.la ∧
    (sendBatch (fun _ => false) exSt [exMsg]).sentTx = exSt.sentTx ∧
    (sendBatch (fun _ => false) exSt [exMsg]).delivered = exSt.delivered ∧
    (sendBatch (fun _ => false) exSt [exMsg]).notified = exSt.notified ∧
    deliverBatches (fun _ => false) exSt [[exMsg]] =
      deliverBatches (fun _ => false) (sendBatch (fun _ => false) exSt [exMsg]) [] :=
  c3_failed_send_contributes_nothing (fun _ => false) exSt [exMsg] [] rfl

/-- Claim C8: for a subscriber with minimum-amount threshold 50, an
otherwise-qualifying trade below 50 (such as 49.99) generates no message
while one at exactly 50.00 does — the comparison is a strict less-than
against the threshold — and a threshold of 0 disables the amount check
entirely. -/
theorem c8_threshold_filter :
    (∀ (address : String) (a : Activity) (chatId : Int) (info : SubInfo),
      info.threshold = 50 → a.type = "TRADE" → info.addedAtSec < a.timestamp →
      categoryBlocked info.filter a = false →
      (a.usdcSize < 50 → pendingFor address a chatId info = none) ∧
      (50 ≤ a.usdcSize → (pendingFor address a chatId info).isSome = true)) ∧
    (∀ (address : String) (a : Activity) (chatId : Int) (info : SubInfo),
      info.threshold = 0 → a.type = "TRADE" → info.addedAtSec < a.timestamp →
      categoryBlocked info.filter a = false →
      (pendingFor address a chatId info).isSome = true) := by
  have htype : ∀ (a : Activity), a.type = "TRADE" → ¬ (a.type ≠ "TRADE") := by
    intro a h
    simp [h]
  constructor
  · intro address a chatId info hthr htrade hafter hcat
    have h2 : ¬ (a.timestamp ≤ info.addedAtSec) := by omega
    constructor
    · intro hlt
      unfold pendingFor
      rw [if_neg (htype a htrade), if_neg h2, if_pos ⟨by rw [hthr]; norm_num, by rwa [hthr]⟩]
    · intro hge
      unfold pendingFor
      rw [if_neg (htype a htrade), if_neg h2,
        if_neg (fun hand => absurd hand.2 (by rw [hthr]; exact not_lt.mpr hge)),
        if_neg (by simp [hcat])]
      obtain ⟨m, hm, hne⟩ := formatActivityMessage_trade a info.displayName address info.lang htrade
      rw [hm]
      simp [hne]
  · intro address a chatId info hthr htrade hafter hcat
    have h2 : ¬ (a.timestamp ≤ info.addedAtSec) := by omega
    unfold pendingFor
    rw [if_neg (htype a htrade), if_neg h2,
      if_neg (fun hand => by rw [hthr] at hand; exact absurd hand.1 (by norm_num)),
      if_neg (by simp [hcat])]
    obtain ⟨m, hm, hne⟩ := formatActivityMessage_trade a info.displayName address info.lang htrade
    rw [hm]
    simp [hne]

/-- Claim C8 witness: with threshold 50, the concrete trade at 49.99 is
suppressed while the one at exactly 50.00 generates a message; with
threshold 0, the 49.99 trade passes the disabled check. -/
theorem c8_witness :
    pendingFor "0xa" { exTrade with usdcSize := q4999over100 } 1 exInfoT50 = none ∧
    (pendingFor "0xa" { exTrade with usdcSize := 50 } 1 exInfoT50).isSome = true ∧
    (pendingFor "0xa" { exTrade with usdcSize := q4999over100 } 1
      { exInfoT50 with threshold := 0 }).isSome = true := by
  refine ⟨?_, ?_, ?_⟩
  · exact (c8_threshold_filter.1 "0xa" { exTrade with usdcSize := q4999over100 } 1 exInfoT50
      rfl rfl (by decide) rfl).1 (by decide)
  · exact (c8_threshold_filter.1 "0xa" { exTrade with usdcSize := 50 } 1 exInfoT50
      rfl rfl (by decide) rfl).2 (by decide)
  · exact c8_threshold_filter.2 "0xa" { exTrade with usdcSize := q4999over100 } 1
      { exInfoT50 with threshold := 0 } rfl rfl (by decide) rfl

/-- Claim C9: for a subscriber with category filter
`{mode: include, categories: [nba]}`, an otherwise-qualifying event with
market slug `nba-lakers-vs-celtics` generates a message and one with slug
`epl-arsenal-vs-chelsea` is suppressed; the derived category is the first
hyphen-separated segment of the market slug, lowercased. -/
theorem c9_category_filter (address : String) (a : Activity) (chatId : Int) (info : SubInfo)
    (hfil : info.filter = some { mode := "include", categories := ["nba"] })
    (htrade : a.type = "TRADE") (hafter : info.addedAtSec < a.timestamp)
    (hthr : ¬ (0 < info.threshold ∧ a.usdcSize < info.threshold)) :
    (a.slug = some "nba-lakers-vs-celtics" →
      (pendingFor address a chatId info).isSome = true) ∧
    (a.slug = some "epl-arsenal-vs-chelsea" →
      pendingFor address a chatId info = none) ∧
    slugCategory (some "nba-lakers-vs-celtics") = "nba" ∧
    slugCategory (some "epl-arsenal-vs-chelsea") = "epl" := by
  have htype : ¬ (a.type ≠ "TRADE") := by simp [htrade]
  have h2 : ¬ (a.timestamp ≤ info.addedAtSec) := by omega
  refine ⟨?_, ?_, by decide, by decide⟩
  · intro hslug
    have hcat : categoryBlocked info.filter a = false := by
      rw [hfil]
      simp only [categoryBlocked, hslug]
      decide
    unfold pendingFor
    rw [if_neg htype, if_neg h2, if_neg hthr, if_neg (by simp [hcat])]
    obtain ⟨m, hm, hne⟩ := formatActivityMessage_trade a info.displayName address info.lang htrade
    rw [hm]
    simp [hne]
  · intro hslug
    have hcat : categoryBlocked info.filter a = true := by
      rw [hfil]
      simp only [categoryBlocked, hslug]
      decide
    unfold pendingFor
    rw [if_neg htype, if_neg h2, if_neg hthr, if_pos hcat]

/-- Claim C9 witness: the include-nba filter passes the concrete
`nba-lakers-vs-celtics` trade and suppresses the `epl-arsenal-vs-chelsea`
one. -/
theorem c9_witness :
    (pendingFor "0xa" { exTrade with slug := some "nba-lakers-vs-celtics" } 1
      exInfoNba).isSome = true ∧
    pendingFor "0xa" { exTrade with slug := some "epl-arsenal-vs-chelsea" } 1
      exInfoNba = none := by
  constructor
  · exact (c9_category_filter "0xa" { exTrade with slug := some "nba-lakers-vs-celtics" } 1
      exInfoNba rfl rfl (by decide) (by decide)).1 rfl
  · exact (c9_category_filter "0xa" { exTrade with slug := some "epl-arsenal-vs-chelsea" } 1
      exInfoNba rfl rfl (by decide) (by decide)).2.1 rfl

/-- Every upstream call one address group issues names that address and
carries the default limit of 20 (the scheduler's options object has no
`limit` key). -/
theorem processAddress_calls (apiTransport : String → ActivityParams → List Activity)
    (now : Nat) (configs : List (Int × UserConfig)) (sentSet : List String)
    (la : List (String × Nat)) (address : String) (subs : List SubWithChat) :
    ∀ c ∈ (processAddress apiTransport now configs sentSet la address subs).calls,
      c.1 = address ∧ c.2 = getUserActivityParams address { limit := none, start := c.2.start } := by
  intro c hc
  simp only [processAddress] at hc
  repeat' split at hc
  all_goals simp at hc
  all_goals subst hc
  all_goals exact ⟨rfl, rfl⟩

/-- Calls of the whole per-address phase are the concatenation of the
per-group calls. -/
theorem processAll_calls_mem (apiTransport : String → ActivityParams → List Activity)
    (now : Nat) (configs : List (Int × UserConfig)) (sentSet : List String)
    (la0 : List (String × Nat)) (entries : List (String × List SubWithChat)) :
    ∀ c ∈ (processAll apiTransport now configs sentSet la0 entries).calls,
      ∃ la e, e ∈ entries ∧
        c ∈ (processAddress apiTransport now configs sentSet la e.1 e.2).calls := by
  suffices h : ∀ (entries : List (String × List SubWithChat)) (acc : Phase1Out),
      ∀ c ∈ (entries.foldl (fun acc e =>
        let r := processAddress apiTransport now configs sentSet acc.la e.1 e.2
        { la := r.la
          pending := acc.pending ++ r.pending
          processed := acc.processed + r.processed
          calls := acc.calls ++ r.calls }) acc).calls,
        c ∈ acc.calls ∨ ∃ la e, e ∈ entries ∧
          c ∈ (processAddress apiTransport now configs sentSet la e.1 e.2).calls by
    intro c hc
    rcases h entries { la := la0, pending := [], processed := 0, calls := [] } c hc with hacc | hrest
    · simp at hacc
    · exact hrest
  intro entries
  induction entries with
  | nil =>
    intro acc c hc
    exact Or.inl hc
  | cons e rest ih =>
    intro acc c hc
    simp only [List.foldl_cons] at hc
    rcases ih _ c hc with hacc | ⟨la, e', he', hc'⟩
    · simp only [List.mem_append] at hacc
      rcases hacc with h1 | h2
      · exact Or.inl h1
      · exact Or.inr ⟨acc.la, e, List.mem_cons_self _ _, h2⟩
    · exact Or.inr ⟨la, e', List.mem_cons_of_mem _ he', hc'⟩

/-- Claim C10: every per-address upstream fetch of the poll cycle requests
at most 20 events — the activity client's default limit, never overridden
by the orchestrator — and therefore, whenever the upstream honors the
requested limit, at most 20 events per address are examined in the
cycle; events beyond that limit are simply not fetched. -/
theorem c10_fetch_limit (apiTransport : String → ActivityParams → List Activity)
    (sendOk : Nat → Bool) (now : Nat) (cache : Cache)
    (c : String × ActivityParams)
    (hc : c ∈ (checkSubscriptions apiTransport sendOk now cache).calls) :
    c.2.limit = some 20 ∧
    ((∀ addr p, (apiTransport addr p).length ≤ p.limit.getD 0) →
      (apiTransport c.1 c.2).length ≤ 20) := by
  have hparams : c.2 = getUserActivityParams c.1 { limit := none, start := c.2.start } := by
    simp only [checkSubscriptions] at hc
    split at hc
    · simp at hc
    · dsimp only at hc
      obtain ⟨la, e, _, hmem⟩ := processAll_calls_mem apiTransport now cache.userConfigs
          cache.sentTxHashes cache.lastActivities (buildAddressMap cache.userSubscriptions) c hc
      obtain ⟨he, hp⟩ := processAddress_calls apiTransport now cache.userConfigs
        cache.sentTxHashes la e.1 e.2 c hmem
      rw [hp, he]
      rfl
  have hlimit : c.2.limit = some 20 := by
    rw [hparams]
    rfl
  refine ⟨hlimit, ?_⟩
  intro hhonor
  have := hhonor c.1 c.2
  rw [hlimit] at this
  simpa using this

/-- Claim C10 witness: the single call of the concrete successful cycle
carries `limit=20`, and its one-event response is within the limit. -/
theorem c10_witness :
    (("0xa", ActivityParams.mk "0xa" "TRADE,REDEEM" (some 20) "TIMESTAMP" "DESC" (some 49)) ∈
      exOutOne.calls) ∧
    (ActivityParams.mk "0xa" "TRADE,REDEEM" (some 20) "TIMESTAMP" "DESC" (some 49)).limit =
      some 20 ∧
    ((∀ addr p, ((fun (_ : String) (_ : ActivityParams) => [exTrade]) addr p).length ≤
        p.limit.getD 0) →
      ((fun (_ : String) (_ : ActivityParams) => [exTrade]) "0xa"
        (ActivityParams.mk "0xa" "TRADE,REDEEM" (some 20) "TIMESTAMP" "DESC" (some 49))).length ≤
        20) := by
  have hmem : (("0xa", ActivityParams.mk "0xa" "TRADE,REDEEM" (some 20) "TIMESTAMP" "DESC"
      (some 49)) ∈ exOutOne.calls) := by decide
  have h := c10_fetch_limit (fun _ _ => [exTrade]) (fun _ => true) 1000 exCacheOne
    ("0xa", ActivityParams.mk "0xa" "TRADE,REDEEM" (some 20) "TIMESTAMP" "DESC" (some 49)) hmem
  exact ⟨hmem, h.1, h.2⟩

/-- Raising or adding one key of the watermark map never lowers any
looked-up value (reading absent keys as 0, as the cycle does). -/
theorem aset_getD_mono (la : List (String × Nat)) (k : String) (v : Nat)
    (h : (alookup la k).getD 0 ≤ v) (k' : String) :
    (alookup la k').getD 0 ≤ (alookup (aset la k v) k').getD 0 := by
  by_cases hk : k' = k
  · subst hk
    rw [alookup_aset_self]
    simpa using h
  · rw [alookup_aset_ne la k k' v hk]

/-- `processAddress` either leaves the watermark map alone or performs the
legacy initialization `lastActivities[address] = now`, which only happens
when the stored watermark reads 0 or 1. -/
theorem processAddress_la_cases (apiTransport : String → ActivityParams → List Activity)
    (now : Nat) (configs : List (Int × UserConfig)) (sentSet : List String)
    (la : List (String × Nat)) (address : String) (subs : List SubWithChat) :
    (processAddress apiTransport now configs sentSet la address subs).la = la ∨
    ((processAddress apiTransport now configs sentSet la address subs).la =
        aset la address now ∧
      (alookup la address).getD 0 ≤ 1) := by
  simp only [processAddress]
  repeat' split
  all_goals
    first
      | exact Or.inl rfl
      | (refine Or.inr ⟨rfl, ?_⟩
         omega)

/-- Watermark monotonicity of one address-group step (needs the real-time
clock fact `1 ≤ now` so that the legacy initialization cannot lower a
stored watermark of 1). -/
theorem processAddress_la_mono (apiTransport : String → ActivityParams → List Activity)
    (now : Nat) (configs : List (Int × UserConfig)) (sentSet : List String)
    (la : List (String × Nat)) (address : String) (subs : List SubWithChat)
    (hnow : 1 ≤ now) (k : String) :
    (alookup la k).getD 0 ≤
      (alookup (processAddress apiTransport now configs sentSet la address subs).la k).getD 0 ∧
    ((alookup la k).isSome = true →
      (alookup (processAddress apiTransport now configs sentSet la address subs).la k).isSome
        = true) := by
  rcases processAddress_la_cases apiTransport now configs sentSet la address subs with
    h | ⟨h, hle⟩
  · rw [h]
    exact ⟨le_refl _, fun x => x⟩
  · rw [h]
    refine ⟨aset_getD_mono la address now (by omega) k, ?_⟩
    exact fun hs => alookup_isSome_aset la address k now hs

/-- The watermark component of the per-address phase is a plain fold of
the per-address watermark updates. -/
theorem processAll_la_eq (apiTransport : String → ActivityParams → List Activity)
    (now : Nat) (configs : List (Int × UserConfig)) (sentSet : List String)
    (la0 : List (String × Nat)) (entries : List (String × List SubWithChat)) :
    (processAll apiTransport now configs sentSet la0 entries).la =
      entries.foldl
        (fun la e => (processAddress apiTransport now configs sentSet la e.1 e.2).la) la0 := by
  suffices h : ∀ (entries : List (String × List SubWithChat)) (acc : Phase1Out),
      (entries.foldl (fun acc e =>
        let r := processAddress apiTransport now configs sentSet acc.la e.1 e.2
        { la := r.la
          pending := acc.pending ++ r.pending
          processed := acc.processed + r.processed
          calls := acc.calls ++ r.calls }) acc).la =
      entries.foldl
        (fun la e => (processAddress apiTransport now configs sentSet la e.1 e.2).la) acc.la by
    exact h entries _
  intro entries
  induction entries with
  | nil => intro acc; rfl
  | cons e rest ih =>
    intro acc
    simp only [List.foldl_cons]
    exact ih _

/-- Watermark monotonicity across the whole per-address phase. -/
theorem processAll_la_mono (apiTransport : String → ActivityParams → List Activity)
    (now : Nat) (configs : List (Int × UserConfig)) (sentSet : List String)
    (la0 : List (String × Nat)) (entries : List (String × List SubWithChat))
    (hnow : 1 ≤ now) (k : String) :
    (alookup la0 k).getD 0 ≤
      (alookup (processAll apiTransport now configs sentSet la0 entries).la k).getD 0 ∧
    ((alookup la0 k).isSome = true →
      (alookup (processAll apiTransport now configs sentSet la0 entries).la k).isSome = true) := by
  rw [processAll_la_eq]
  induction entries generalizing la0 with
  | nil => exact ⟨le_refl _, fun x => x⟩
  | cons e rest ih =>
    simp only [List.foldl_cons]
    have h1 := processAddress_la_mono apiTransport now configs sentSet la0 e.1 e.2 hnow k
    have h2 := ih (processAddress apiTransport now configs sentSet la0 e.1 e.2).la
    exact ⟨le_trans h1.1 h2.1, fun hs => h2.2 (h1.2 hs)⟩

/-- Watermark monotonicity of one send step: a successful send only ever
raises the batch's address watermark (guarded by a strict comparison), a
failed send changes nothing. -/
theorem sendBatch_la_mono (sendOk : Nat → Bool) (st : DeliverState)
    (b : List PendingMessage) (k : String) :
    (alookup st.la k).getD 0 ≤ (alookup (sendBatch sendOk st b).la k).getD 0 ∧
    ((alookup st.la k).isSome = true →
      (alookup (sendBatch sendOk st b).la k).isSome = true) := by
  cases b with
  | nil => exact ⟨le_refl _, fun x => x⟩
  | cons m0 ms =>
    simp only [sendBatch]
    by_cases hok : sendOk st.idx = true
    · rw [if_pos hok]
      dsimp only
      by_cases hlt : (alookup st.la m0.address).getD 0 <
          List.foldl (fun acc m => max acc m.timestamp) m0.timestamp ms
      · rw [if_pos hlt]
        refine ⟨aset_getD_mono st.la m0.address _ (by omega) k, ?_⟩
        exact fun hs => alookup_isSome_aset st.la m0.address k _ hs
      · rw [if_neg hlt]
        exact ⟨le_refl _, fun x => x⟩
    · rw [if_neg hok]
      exact ⟨le_refl _, fun x => x⟩

/-- Watermark monotonicity across the whole send loop. -/
theorem deliverBatches_la_mono (sendOk : Nat → Bool) (st : DeliverState)
    (batches : List (List PendingMessage)) (k : String) :
    (alookup st.la k).getD 0 ≤ (alookup (deliverBatches sendOk st batches).la k).getD 0 ∧
    ((alookup st.la k).isSome = true →
      (alookup (deliverBatches sendOk st batches).la k).isSome = true) := by
  unfold deliverBatches
  induction batches generalizing st with
  | nil => exact ⟨le_refl _, fun x => x⟩
  | cons b rest ih =>
    simp only [List.foldl_cons]
    have h1 := sendBatch_la_mono sendOk st b k
    have h2 := ih (sendBatch sendOk st b)
    exact ⟨le_trans h1.1 h2.1, fun hs => h2.2 (h1.2 hs)⟩

/-- Orphan eviction never rewrites a surviving value downwards: an entry
that survives under a key either is the entry that was looked up before,
or (duplicate-key corner) a younger one. -/
theorem evictOrphans_le (validAddresses : List String) (now : Nat)
    (la : List (String × Nat)) (k : String) (v v' : Nat)
    (h : alookup la k = some v)
    (h' : alookup (evictOrphans validAddresses now la) k = some v') :
    v ≤ v' := by
  unfold evictOrphans at h'
  rcases alookup_filter _ la k v v' h h' with heq | ⟨hf, ht⟩
  · omega
  · have hf' : validAddresses.contains k = false ∧ ¬ (now - v ≤ TTL) := by
      simpa using hf
    have ht' : validAddresses.contains k = true ∨ now - v' ≤ TTL := by
      simpa using ht
    rcases ht' with hc | hle
    · rw [hf'.1] at hc
      exact absurd hc (by simp)
    · have h1 : ¬ (now - v ≤ 86400 * 90) := by
        have := hf'.2
        simpa [TTL] using this
      have h2 : now - v' ≤ 86400 * 90 := by
        simpa [TTL] using hle
      omega

/-- Claim C2: for every address, the watermark value after a poll cycle is
at least its value before the cycle — neither legacy initialization (which
only replaces a reading of 0 or 1 with the current clock), nor the
guarded post-delivery update, nor orphan eviction stores a smaller
timestamp for an address that keeps an entry. `1 ≤ now` says the cycle
runs at a positive Unix second. -/
theorem c2_watermark_monotone (apiTransport : String → ActivityParams → List Activity)
    (sendOk : Nat → Bool) (now : Nat) (cache : Cache) (addr : String)
    (before after : Nat) (hnow : 1 ≤ now)
    (hb : alookup cache.lastActivities addr = some before)
    (ha : alookup (checkSubscriptions apiTransport sendOk now cache).lastActivities addr =
      some after) :
    before ≤ after := by
  simp only [checkSubscriptions] at ha
  split at ha
  · rw [hb] at ha
    cases ha
    exact le_refl _
  · dsimp only at ha
    have hm1 := processAll_la_mono apiTransport now cache.userConfigs cache.sentTxHashes
      cache.lastActivities (buildAddressMap cache.userSubscriptions) hnow addr
    have hm2 := deliverBatches_la_mono sendOk
      { la := (processAll apiTransport now cache.userConfigs cache.sentTxHashes
          cache.lastActivities (buildAddressMap cache.userSubscriptions)).la
        sentTx := cache.sentTxHashes, delivered := [], notified := 0, idx := 0 }
      ((groupByChatAddr (sortByKey (fun m => m.timestamp)
        (processAll apiTransport now cache.userConfigs cache.sentTxHashes
          cache.lastActivities (buildAddressMap cache.userSubscriptions)).pending)).flatMap
        (fun g => chunksOf 5 g.2)) addr
    have hsome0 : (alookup cache.lastActivities addr).isSome = true := by
      rw [hb]
      rfl
    have hsome2 := hm2.2 (hm1.2 hsome0)
    obtain ⟨w, hw⟩ := Option.isSome_iff_exists.mp hsome2
    have hbefore_w : before ≤ w := by
      have := le_trans hm1.1 hm2.1
      rw [hb, hw] at this
      simpa using this
    have hw_after := evictOrphans_le (keysOf (buildAddressMap cache.userSubscriptions)) now
      _ addr w after hw ha
    omega

/-- Claim C2 witness: the concrete successful cycle raises the watermark
of `0xa` from 50 to 100. -/
theorem c2_witness : (50 : Nat) ≤ 100 :=
  c2_watermark_monotone (fun _ _ => [exTrade]) (fun _ => true) 1000 exCacheOne "0xa" 50 100
    (by decide) (by decide) (by decide)

/-- Deduplication distributes over append, threading the seen set. -/
theorem dedupByTx_append (xs ys : List Activity) (seen : List String) :
    dedupByTx (xs ++ ys) seen = dedupByTx xs seen ++ dedupByTx ys (seenAfter xs seen) := by
  induction xs generalizing seen with
  | nil => rfl
  | cons a rest ih =>
    simp only [List.cons_append, dedupByTx, seenAfter]
    cases a.transactionHash with
    | none => simp [ih]
    | some h =>
      by_cases hc : h ∈ seen
      · simp [hc, ih]
      · simp [hc, ih]

/-- The seen set only grows while scanning. -/
theorem mem_seenAfter_of_mem (xs : List Activity) (seen : List String) (h : String)
    (hm : h ∈ seen) : h ∈ seenAfter xs seen := by
  induction xs generalizing seen with
  | nil => exact hm
  | cons a rest ih =>
    simp only [seenAfter]
    cases a.transactionHash with
    | none => exact ih seen hm
    | some h' =>
      by_cases hc : h' ∈ seen
      · simp [hc]
        exact ih seen hm
      · simp [hc]
        exact ih (h' :: seen) (List.mem_cons_of_mem _ hm)

/-- After scanning, every hash occurring in the list is in the seen set. -/
theorem tx_mem_seenAfter (xs : List Activity) (seen : List String) (a : Activity) (h : String)
    (ha : a ∈ xs) (htx : a.transactionHash = some h) : h ∈ seenAfter xs seen := by
  induction xs generalizing seen with
  | nil => simp at ha
  | cons b rest ih =>
    simp only [seenAfter]
    rcases List.mem_cons.mp ha with rfl | hmem
    · rw [htx]
      by_cases hc : h ∈ seen
      · simp [hc]
        exact mem_seenAfter_of_mem rest seen h hc
      · simp [hc]
        exact mem_seenAfter_of_mem rest (h :: seen) h (List.mem_cons_self _ _)
    · cases b.transactionHash with
      | none => exact ih seen hmem
      | some h' =>
        by_cases hc : h' ∈ seen
        · simp [hc]
          exact ih seen hmem
        · simp [hc]
          exact ih (h' :: seen) hmem

/-- A list all of whose hashes are already seen deduplicates to nothing. -/
theorem dedupByTx_eq_nil (ys : List Activity) (seen : List String)
    (hall : ∀ a ∈ ys, ∃ h, a.transactionHash = some h ∧ h ∈ seen) :
    dedupByTx ys seen = [] := by
  induction ys with
  | nil => rfl
  | cons a rest ih =>
    obtain ⟨h, htx, hmem⟩ := hall a (List.mem_cons_self _ _)
    simp only [dedupByTx, htx]
    simp [hmem]
    exact ih (fun b hb => hall b (List.mem_cons_of_mem _ hb))

/-- Replaying a hash-carrying list twice deduplicates to the single copy. -/
theorem dedupByTx_self_append (xs : List Activity) (seen : List String)
    (hall : ∀ a ∈ xs, a.transactionHash ≠ none) :
    dedupByTx (xs ++ xs) seen = dedupByTx xs seen := by
  rw [dedupByTx_append]
  have hnil : dedupByTx xs (seenAfter xs seen) = [] := by
    apply dedupByTx_eq_nil
    intro a ha
    cases htx : a.transactionHash with
    | none => exact absurd htx (hall a ha)
    | some h => exact ⟨h, rfl, tx_mem_seenAfter xs seen a h ha htx⟩
  rw [hnil, List.append_nil]

/-- The fetch-and-filter body of `processAddress` is unchanged when the
upstream response is replayed twice, provided every event carries a
transaction hash: the per-cycle dedup removes the second copy before
policy evaluation. -/
theorem processAddress_run_dup (apiTransport : String → ActivityParams → List Activity)
    (configs : List (Int × UserConfig)) (sentSet : List String) (la : List (String × Nat))
    (address : String) (subs : List SubWithChat) (lastActivity apiStart : Nat)
    (hall : ∀ p a, a ∈ apiTransport address p → a.transactionHash ≠ none) :
    (let params := getUserActivityParams address { limit := none, start := some apiStart }
     let activities := apiTransport address params ++ apiTransport address params
     let filtered := activities.filter (isNewActivity lastActivity sentSet)
     if filtered.isEmpty then
       ({ la := la, pending := [], processed := 0, calls := [(address, params)] } : AddrOut)
     else
       let newActivities := sortByKey (fun a => a.timestamp) (dedupByTx filtered [])
       let subInfoMap := buildSubInfoMap configs (shortenAddress address) subs
       { la := la
         pending := newActivities.flatMap (pendingOfActivity address subInfoMap)
         processed := newActivities.length
         calls := [(address, params)] }) =
    (let params := getUserActivityParams address { limit := none, start := some apiStart }
     let activities := apiTransport address params
     let filtered := activities.filter (isNewActivity lastActivity sentSet)
     if filtered.isEmpty then
       ({ la := la, pending := [], processed := 0, calls := [(address, params)] } : AddrOut)
     else
       let newActivities := sortByKey (fun a => a.timestamp) (dedupByTx filtered [])
       let subInfoMap := buildSubInfoMap configs (shortenAddress address) subs
       { la := la
         pending := newActivities.flatMap (pendingOfActivity address subInfoMap)
         processed := newActivities.length
         calls := [(address, params)] }) := by
  dsimp only
  rw [List.filter_append]
  by_cases hfe :
      (apiTransport address (getUserActivityParams address
        { limit := none, start := some apiStart })).filter
        (isNewActivity lastActivity sentSet) = []
  · rw [hfe]
    rfl
  · have hne : ¬ (((apiTransport address (getUserActivityParams address
        { limit := none, start := some apiStart })).filter
          (isNewActivity lastActivity sentSet) ++
        (apiTransport address (getUserActivityParams address
          { limit := none, start := some apiStart })).filter
          (isNewActivity lastActivity sentSet)).isEmpty = true) := by
      simp [List.isEmpty_iff, hfe]
    have hne1 : ¬ ((apiTransport address (getUserActivityParams address
        { limit := none, start := some apiStart })).filter
          (isNewActivity lastActivity sentSet)).isEmpty = true := by
      simp [List.isEmpty_iff, hfe]
    rw [if_neg hne, if_neg hne1]
    have hdedup := dedupByTx_self_append
      ((apiTransport address (getUserActivityParams address
        { limit := none, start := some apiStart })).filter
        (isNewActivity lastActivity sentSet)) []
      (fun a ha => hall _ a (List.mem_of_mem_filter ha))
    rw [hdedup]

/-- `processAddress` is unchanged by a duplicated upstream response. -/
theorem processAddress_dup (apiTransport : String → ActivityParams → List Activity)
    (now : Nat) (configs : List (Int × UserConfig)) (sentSet : List String)
    (la : List (String × Nat)) (address : String) (subs : List SubWithChat)
    (hall : ∀ p a, a ∈ apiTransport address p → a.transactionHash ≠ none) :
    processAddress (fun addr p => apiTransport addr p ++ apiTransport addr p)
      now configs sentSet la address subs =
      processAddress apiTransport now configs sentSet la address subs := by
  simp only [processAddress]
  split
  case isTrue =>
    split
    case isTrue =>
      generalize (List.map (fun s => s.sub.addedAt / 1000)
        (List.filter (fun s => decide (s.sub.addedAt ≠ 0)) subs)) = vl
      cases vl with
      | nil => rfl
      | cons v vs =>
        exact processAddress_run_dup apiTransport configs sentSet la address subs _ _ hall
    case isFalse =>
      exact processAddress_run_dup apiTransport configs sentSet la address subs _ _ hall
  case isFalse =>
    rw [if_pos rfl]
    generalize (List.map (fun s => s.sub.addedAt / 1000)
      (List.filter (fun s => decide (s.sub.addedAt ≠ 0)) subs)) = vl
    cases vl with
    | nil => rfl
    | cons v vs =>
      exact processAddress_run_dup apiTransport configs sentSet la address subs _ _ hall

/-- The whole per-address phase is unchanged by a duplicated upstream
response. -/
theorem processAll_dup (apiTransport : String → ActivityParams → List Activity)
    (now : Nat) (configs : List (Int × UserConfig)) (sentSet : List String)
    (la0 : List (String × Nat)) (entries : List (String × List SubWithChat))
    (hall : ∀ addr p a, a ∈ apiTransport addr p → a.transactionHash ≠ none) :
    processAll (fun addr p => apiTransport addr p ++ apiTransport addr p)
      now configs sentSet la0 entries =
      processAll apiTransport now configs sentSet la0 entries := by
  unfold processAll
  suffices h : ∀ (entries : List (String × List SubWithChat)) (acc : Phase1Out),
      entries.foldl (fun acc e =>
        let r := processAddress (fun addr p => apiTransport addr p ++ apiTransport addr p)
          now configs sentSet acc.la e.1 e.2
        { la := r.la
          pending := acc.pending ++ r.pending
          processed := acc.processed + r.processed
          calls := acc.calls ++ r.calls }) acc =
      entries.foldl (fun acc e =>
        let r := processAddress apiTransport now configs sentSet acc.la e.1 e.2
        { la := r.la
          pending := acc.pending ++ r.pending
          processed := acc.processed + r.processed
          calls := acc.calls ++ r.calls }) acc by
    exact h entries _
  intro entries
  induction entries with
  | nil => intro acc; rfl
  | cons e rest ih =>
    intro acc
    simp only [List.foldl_cons]
    rw [processAddress_dup apiTransport now configs sentSet acc.la e.1 e.2
      (fun p a ha => hall e.1 p a ha)]
    exact ih _

/-- Claim C5: if the upstream fetch returns the same event list with each
record duplicated (every record carrying a transaction id), the cycle is
observably identical to the cycle on the single-copy list — in
particular it delivers exactly one message per qualifying subscriber per
event, because the per-cycle dedup removes the duplicates before policy
evaluation. -/
theorem c5_duplicate_replay (apiTransport : String → ActivityParams → List Activity)
    (sendOk : Nat → Bool) (now : Nat) (cache : Cache)
    (hall : ∀ addr p a, a ∈ apiTransport addr p → a.transactionHash ≠ none) :
    checkSubscriptions (fun addr p => apiTransport addr p ++ apiTransport addr p)
      sendOk now cache =
      checkSubscriptions apiTransport sendOk now cache := by
  unfold checkSubscriptions
  split
  · rfl
  · dsimp only
    rw [processAll_dup apiTransport now cache.userConfigs cache.sentTxHashes
      cache.lastActivities (buildAddressMap cache.userSubscriptions) hall]

/-- Claim C5 witness: the concrete cycle on the twice-replayed one-event
list equals the cycle on the single-copy list. -/
theorem c5_witness : exOutOneDup = exOutOne :=
  c5_duplicate_replay (fun _ _ => [exTrade]) (fun _ => true) 1000 exCacheOne
    (by
      intro addr p a ha
      simp only [List.mem_singleton] at ha
      subst ha
      decide)

/-- An association-list key without a binding is exactly a key outside the
key list. -/
theorem alookup_eq_none_iff {κ α : Type} [DecidableEq κ] (m : List (κ × α)) (k : κ) :
    alookup m k = none ↔ k ∉ keysOf m := by
  induction m with
  | nil => simp [alookup, keysOf]
  | cons p rest ih =>
    obtain ⟨k₀, v₀⟩ := p
    by_cases hk : k₀ = k
    · subst hk
      simp [alookup, keysOf]
    · simp [alookup, keysOf, hk, ih, Ne.symm hk]

/-- `mapAppend` keeps the key list, appending the key only when new. -/
theorem keysOf_mapAppend {κ α : Type} [DecidableEq κ] (m : List (κ × List α)) (k : κ) (v : α) :
    keysOf (mapAppend m k v) = if k ∈ keysOf m then keysOf m else keysOf m ++ [k] := by
  induction m with
  | nil => simp [mapAppend, keysOf]
  | cons p rest ih =>
    obtain ⟨k₀, vs₀⟩ := p
    by_cases h0 : k₀ = k
    · subst h0
      simp [mapAppend, keysOf]
    · simp only [mapAppend, if_neg h0, keysOf, List.map_cons]
      rw [show keysOf (mapAppend rest k v) = List.map Prod.fst (mapAppend rest k v) from rfl] at ih
      rw [ih]
      by_cases hmem : k ∈ List.map Prod.fst rest
      · simp [keysOf, hmem, Ne.symm h0]
      · simp [keysOf, hmem, Ne.symm h0]

/-- The grouping fold keeps its key list duplicate-free. -/
theorem groupFold_keys_nodup (sws : List SubWithChat)
    (acc : List (String × List SubWithChat)) (h : (keysOf acc).Nodup) :
    (keysOf (sws.foldl (fun m sw => mapAppend m (jsToLower sw.sub.address) sw) acc)).Nodup := by
  induction sws generalizing acc with
  | nil => exact h
  | cons sw rest ih =>
    simp only [List.foldl_cons]
    apply ih
    rw [keysOf_mapAppend]
    by_cases hmem : jsToLower sw.sub.address ∈ keysOf acc
    · simpa [hmem] using h
    · simp only [if_neg hmem]
      simp [List.nodup_append, h, hmem]

/-- Under duplicate-free keys, membership determines the lookup. -/
theorem alookup_of_mem_nodup {κ α : Type} [DecidableEq κ] (m : List (κ × α)) (k : κ) (v : α)
    (hnd : (keysOf m).Nodup) (hm : (k, v) ∈ m) : alookup m k = some v := by
  induction m with
  | nil => simp at hm
  | cons p rest ih =>
    obtain ⟨k₀, v₀⟩ := p
    rcases List.mem_cons.mp hm with heq | hmem
    · cases heq
      simp [alookup]
    · have hk : k₀ ≠ k := by
        intro he
        subst he
        have : k₀ ∈ keysOf rest := by
          simpa [keysOf] using List.mem_map_of_mem Prod.fst hmem
        simp [keysOf] at hnd
        exact absurd this (by simpa [keysOf] using hnd.1)
      simp only [alookup, if_neg hk]
      exact ih (by simpa [keysOf] using ((List.nodup_cons.mp (by simpa [keysOf] using hnd)).2))
        hmem

/-- `buildAddressMap` is the fold of the grouping step over the flattened
subscription list. -/
theorem buildAddressMap_eq_fold (subs : List (Int × List SubRecord)) :
    buildAddressMap subs =
      (allSubsWithChat subs).foldl
        (fun m sw => mapAppend m (jsToLower sw.sub.address) sw) [] := by
  unfold buildAddressMap allSubsWithChat
  suffices h : ∀ (subs : List (Int × List SubRecord)) (acc : List (String × List SubWithChat)),
      subs.foldl (fun m p =>
        p.2.foldl (fun m' s => mapAppend m' (jsToLower s.address) ⟨s, p.1⟩) m) acc =
      (subs.flatMap (fun p => p.2.map (fun s => ⟨s, p.1⟩))).foldl
        (fun m sw => mapAppend m (jsToLower sw.sub.address) sw) acc by
    exact h subs []
  intro subs
  induction subs with
  | nil => intro acc; rfl
  | cons p rest ih =>
    intro acc
    simp only [List.foldl_cons, List.flatMap_cons, List.foldl_append, List.foldl_map]
    exact ih _

/-- Lookup in the grouping fold: the stored group is the previously
accumulated group extended by everything in the scanned list whose
lowercased address matches. -/
theorem alookup_groupFold (sws : List SubWithChat) (acc : List (String × List SubWithChat))
    (a : String) :
    alookup (sws.foldl (fun m sw => mapAppend m (jsToLower sw.sub.address) sw) acc) a =
      if alookup acc a = none ∧ sws.filter (fun sw => jsToLower sw.sub.address = a) = []
      then none
      else some ((alookup acc a).getD [] ++
        sws.filter (fun sw => jsToLower sw.sub.address = a)) := by
  induction sws generalizing acc with
  | nil =>
    simp only [List.foldl_nil, List.filter_nil]
    cases hv : alookup acc a with
    | none => simp
    | some g => simp
  | cons sw rest ih =>
    simp only [List.foldl_cons]
    rw [ih]
    by_cases hmatch : jsToLower sw.sub.address = a
    · have hlook : alookup (mapAppend acc (jsToLower sw.sub.address) sw) a =
          some ((alookup acc a).getD [] ++ [sw]) := by
        rw [alookup_mapAppend]
        simp [hmatch]
      rw [hlook]
      rw [List.filter_cons_of_pos (by simpa using hmatch)]
      cases hv : alookup acc a with
      | none => simp
      | some g => simp
    · have hlook : alookup (mapAppend acc (jsToLower sw.sub.address) sw) a = alookup acc a := by
        rw [alookup_mapAppend, if_neg (fun he => hmatch he.symm)]
      rw [hlook]
      rw [List.filter_cons_of_neg (by simpa using hmatch)]

/-- Lookup in `buildAddressMap`: present exactly for addresses with at
least one subscription, holding precisely that address's subscriptions. -/
theorem alookup_buildAddressMap (subs : List (Int × List SubRecord)) (a : String) :
    alookup (buildAddressMap subs) a =
      if subsForAddr subs a = [] then none else some (subsForAddr subs a) := by
  rw [buildAddressMap_eq_fold, alookup_groupFold]
  simp [subsForAddr, alookup]

/-- The address map has duplicate-free keys. -/
theorem buildAddressMap_keys_nodup (subs : List (Int × List SubRecord)) :
    (keysOf (buildAddressMap subs)).Nodup := by
  rw [buildAddressMap_eq_fold]
  exact groupFold_keys_nodup _ [] (by simp [keysOf])

/-- `processAddress` never touches another address's watermark entry. -/
theorem processAddress_la_other (apiTransport : String → ActivityParams → List Activity)
    (now : Nat) (configs : List (Int × UserConfig)) (sentSet : List String)
    (la : List (String × Nat)) (address : String) (subs : List SubWithChat)
    (k : String) (hk : k ≠ address) :
    alookup (processAddress apiTransport now configs sentSet la address subs).la k =
      alookup la k := by
  rcases processAddress_la_cases apiTransport now configs sentSet la address subs with
    h | ⟨h, _⟩
  · rw [h]
  · rw [h, alookup_aset_ne la address k now hk]

/-- One address group issues exactly one upstream call, except on the
legacy-defer path where it issues none. -/
theorem processAddress_calls_length (apiTransport : String → ActivityParams → List Activity)
    (now : Nat) (configs : List (Int × UserConfig)) (sentSet : List String)
    (la : List (String × Nat)) (address : String) (subs : List SubWithChat) :
    (processAddress apiTransport now configs sentSet la address subs).calls.length =
      if ((if 0 < (alookup la address).getD 0 then (alookup la address).getD 0 - 1 else 0) = 0 ∧
          (subs.filter (fun s => s.sub.addedAt ≠ 0)).map (fun s => s.sub.addedAt / 1000) = [])
      then 0 else 1 := by
  simp only [processAddress]
  by_cases h0 : (if 0 < (alookup la address).getD 0
      then (alookup la address).getD 0 - 1 else 0) = 0
  · rw [if_pos h0]
    cases hv : (subs.filter (fun s => decide (s.sub.addedAt ≠ 0))).map
        (fun s => s.sub.addedAt / 1000) with
    | nil =>
      rw [if_pos ⟨h0, rfl⟩]
      rfl
    | cons v vs =>
      rw [if_neg (fun hand => List.cons_ne_nil v vs hand.2)]
      dsimp only
      split
      · rfl
      · rfl
  · have hr : ¬ ((if 0 < (alookup la address).getD 0
        then (alookup la address).getD 0 - 1 else 0) = 0 ∧
        (subs.filter (fun s => s.sub.addedAt ≠ 0)).map (fun s => s.sub.addedAt / 1000) = []) :=
      fun hand => h0 hand.1
    rw [if_neg h0, if_neg hr]
    repeat' split
    all_goals rfl

/-- Per-address call counts over one address group. -/
theorem callCount_append (xs ys : List (String × ActivityParams)) (a : String) :
    callCount (xs ++ ys) a = callCount xs a + callCount ys a := by
  simp [callCount, List.filter_append]

/-- Counting calls that all carry one fixed address. -/
theorem callCount_of_all_eq (calls : List (String × ActivityParams)) (address a : String)
    (hall : ∀ c ∈ calls, c.1 = address) :
    callCount calls a = if a = address then calls.length else 0 := by
  by_cases ha : a = address
  · subst ha
    have hfe : calls.filter (fun c => c.1 = a) = calls :=
      List.filter_eq_self.mpr (fun c hc => by simpa using hall c hc)
    simp [callCount, hfe]
  · have hfe : calls.filter (fun c => c.1 = a) = [] := by
      rw [List.filter_eq_nil_iff]
      intro c hc
      simp only [decide_eq_true_eq]
      rw [hall c hc]
      exact fun he => ha he.symm
    simp [callCount, hfe, ha]

/-- Per-address call count of the whole per-address phase: zero for a
deferred or unknown address, one otherwise, with the defer condition read
off the watermark map the cycle started from. -/
theorem processAll_callCount (apiTransport : String → ActivityParams → List Activity)
    (now : Nat) (configs : List (Int × UserConfig)) (sentSet : List String) :
    ∀ (entries : List (String × List SubWithChat)) (la0 : List (String × Nat)) (addr : String),
      (keysOf entries).Nodup →
      callCount (processAll apiTransport now configs sentSet la0 entries).calls addr =
        (match alookup entries addr with
         | none => 0
         | some subs =>
           if ((if 0 < (alookup la0 addr).getD 0 then (alookup la0 addr).getD 0 - 1 else 0) = 0 ∧
               (subs.filter (fun s => s.sub.addedAt ≠ 0)).map (fun s => s.sub.addedAt / 1000)
                 = [])
           then 0 else 1) := by
  suffices h : ∀ (entries : List (String × List SubWithChat)) (acc : Phase1Out) (addr : String),
      (keysOf entries).Nodup →
      callCount ((entries.foldl (fun acc e =>
        let r := processAddress apiTransport now configs sentSet acc.la e.1 e.2
        { la := r.la
          pending := acc.pending ++ r.pending
          processed := acc.processed + r.processed
          calls := acc.calls ++ r.calls }) acc)).calls addr =
      callCount acc.calls addr +
        (match alookup entries addr with
         | none => 0
         | some subs =>
           if ((if 0 < (alookup acc.la addr).getD 0
                then (alookup acc.la addr).getD 0 - 1 else 0) = 0 ∧
               (subs.filter (fun s => s.sub.addedAt ≠ 0)).map (fun s => s.sub.addedAt / 1000)
                 = [])
           then 0 else 1) by
    intro entries la0 addr hnd
    have := h entries { la := la0, pending := [], processed := 0, calls := [] } addr hnd
    simpa [callCount] using this
  intro entries
  induction entries with
  | nil =>
    intro acc addr _
    simp [alookup]
  | cons e rest ih =>
    intro acc addr hnd
    obtain ⟨e1, e2⟩ := e
    have hkeys : keysOf ((e1, e2) :: rest) = e1 :: keysOf rest := rfl
    rw [hkeys] at hnd
    have hnotin : e1 ∉ keysOf rest := (List.nodup_cons.mp hnd).1
    have hnd1 : (keysOf rest).Nodup := (List.nodup_cons.mp hnd).2
    simp only [List.foldl_cons]
    rw [ih _ addr hnd1]
    dsimp only
    have hcallsfst := processAddress_calls apiTransport now configs sentSet acc.la e1 e2
    have hcount := callCount_of_all_eq
      (processAddress apiTransport now configs sentSet acc.la e1 e2).calls e1 addr
      (fun c hc => (hcallsfst c hc).1)
    by_cases haddr : addr = e1
    · have hrest : alookup rest addr = none := by
        rw [alookup_eq_none_iff, haddr]
        exact hnotin
      have hhead : alookup ((e1, e2) :: rest) addr = some e2 := by
        simp only [alookup]
        rw [if_pos haddr.symm]
      rw [hhead, hrest]
      dsimp only
      rw [callCount_append, hcount, if_pos haddr, processAddress_calls_length, haddr]
      omega
    · have hhead : alookup ((e1, e2) :: rest) addr = alookup rest addr := by
        simp only [alookup]
        rw [if_neg (fun he => haddr he.symm)]
      rw [hhead]
      rw [callCount_append, hcount, if_neg haddr]
      rw [processAddress_la_other apiTransport now configs sentSet acc.la e1 e2 addr haddr]
      omega

/-- Claim C7 counterexample: chats 1 and 2 subscribe to the same address
(case-normalized `0xb`), but both subscriptions are legacy records with
no `addedAt` and the address has no watermark: the cycle issues zero
upstream calls for the address (initializing its watermark to `now`
instead), not exactly one as claimed. -/
theorem c7_counterexample :
    ("0xb" ∈ keysOf (buildAddressMap exCacheLegacy.userSubscriptions)) ∧
    exOutLegacy.calls = [] ∧
    callCount exOutLegacy.calls "0xb" = 0 ∧
    alookup exOutLegacy.lastActivities "0xb" = some 1000 := by
  decide

/-- Claim C7 as amended: in one poll cycle every address is fetched at
most once, and an address with at least one subscription is fetched
exactly once — regardless of how many chats subscribe to it — unless the
legacy-defer path applies (fetch lower bound 0 and no subscriber with a
valid `addedAt`), in which case it is fetched zero times that cycle. -/
theorem c7_fetch_once (apiTransport : String → ActivityParams → List Activity)
    (sendOk : Nat → Bool) (now : Nat) (cache : Cache) (addr : String)
    (hmem : addr ∈ keysOf (buildAddressMap cache.userSubscriptions)) :
    callCount (checkSubscriptions apiTransport sendOk now cache).calls addr =
      (if legacySkip cache addr then 0 else 1) ∧
    (∀ a', callCount (checkSubscriptions apiTransport sendOk now cache).calls a' ≤ 1) := by
  have hnd := buildAddressMap_keys_nodup cache.userSubscriptions
  have hcount : ∀ a', callCount (checkSubscriptions apiTransport sendOk now cache).calls a' =
      (match alookup (buildAddressMap cache.userSubscriptions) a' with
       | none => 0
       | some subs =>
         if ((if 0 < (alookup cache.lastActivities a').getD 0
              then (alookup cache.lastActivities a').getD 0 - 1 else 0) = 0 ∧
             (subs.filter (fun s => s.sub.addedAt ≠ 0)).map (fun s => s.sub.addedAt / 1000)
               = [])
         then 0 else 1) := by
    intro a'
    unfold checkSubscriptions
    split
    · next hempty =>
      have : cache.userSubscriptions = [] := by
        simpa [List.isEmpty_iff] using hempty
      simp [callCount, this, buildAddressMap, alookup]
    · dsimp only
      exact processAll_callCount apiTransport now cache.userConfigs cache.sentTxHashes
        (buildAddressMap cache.userSubscriptions) cache.lastActivities a' hnd
  constructor
  · rw [hcount addr]
    have hne : subsForAddr cache.userSubscriptions addr ≠ [] := by
      intro he
      have hnone : alookup (buildAddressMap cache.userSubscriptions) addr = none := by
        rw [alookup_buildAddressMap, if_pos he]
      exact (alookup_eq_none_iff (buildAddressMap cache.userSubscriptions) addr).mp hnone hmem
    have hlook : alookup (buildAddressMap cache.userSubscriptions) addr =
        some (subsForAddr cache.userSubscriptions addr) := by
      rw [alookup_buildAddressMap, if_neg hne]
    rw [hlook]
    dsimp only
    have hcond : ((if 0 < (alookup cache.lastActivities addr).getD 0
          then (alookup cache.lastActivities addr).getD 0 - 1 else 0) = 0 ∧
        ((subsForAddr cache.userSubscriptions addr).filter
          (fun s => s.sub.addedAt ≠ 0)).map (fun s => s.sub.addedAt / 1000) = []) ↔
        legacySkip cache addr = true := by
      simp [legacySkip, List.isEmpty_iff, List.map_eq_nil_iff]
      intro _
      omega
    by_cases hls : legacySkip cache addr = true
    · rw [if_pos (hcond.mpr hls), if_pos hls]
    · rw [if_neg (fun hc => hls (hcond.mp hc)), if_neg hls]
  · intro a'
    rw [hcount a']
    cases hv : alookup (buildAddressMap cache.userSubscriptions) a' with
    | none => simp
    | some subs =>
      dsimp only
      by_cases hc : ((if 0 < (alookup cache.lastActivities a').getD 0
          then (alookup cache.lastActivities a').getD 0 - 1 else 0) = 0 ∧
          (subs.filter (fun s => s.sub.addedAt ≠ 0)).map (fun s => s.sub.addedAt / 1000) = [])
      · rw [if_pos hc]
        omega
      · rw [if_neg hc]

/-- Claim C7 witness: in the concrete successful cycle the subscribed
address is fetched exactly once (the defer condition does not apply), and
no address is fetched more than once. -/
theorem c7_witness :
    callCount exOutOne.calls "0xa" = (if legacySkip exCacheOne "0xa" then 0 else 1) ∧
    callCount exOutOne.calls "0xzz" ≤ 1 := by
  have h := c7_fetch_once (fun _ _ => [exTrade]) (fun _ => true) 1000 exCacheOne "0xa"
    (by decide)
  exact ⟨h.1, h.2 "0xzz"⟩

/-- Lookup across an append: the left list wins. -/
theorem alookup_append {κ α : Type} [DecidableEq κ] (l1 l2 : List (κ × α)) (k : κ) :
    alookup (l1 ++ l2) k =
      match alookup l1 k with
      | some v => some v
      | none => alookup l2 k := by
  induction l1 with
  | nil => simp [alookup]
  | cons p rest ih =>
    obtain ⟨k₀, v₀⟩ := p
    by_cases hk : k₀ = k
    · subst hk
      simp [alookup]
    · simp only [List.cons_append, alookup, if_neg hk]
      exact ih

/-- `find?` returns the head of the filtered list. -/
theorem find?_eq_head?_filter {α : Type} (p : α → Bool) (l : List α) :
    l.find? p = (l.filter p).head? := by
  induction l with
  | nil => rfl
  | cons x rest ih =>
    by_cases hp : p x = true
    · rw [List.find?_cons_of_pos _ hp, List.filter_cons_of_pos hp]
      rfl
    · rw [List.find?_cons_of_neg _ (by simpa using hp),
        List.filter_cons_of_neg (by simpa using hp)]
      exact ih

/-- Membership is preserved by the stable insertion step. -/
theorem mem_insertByKey {α : Type} (key : α → Nat) (x a : α) (l : List α) :
    a ∈ insertByKey key x l ↔ a = x ∨ a ∈ l := by
  induction l with
  | nil => simp [insertByKey]
  | cons y ys ih =>
    simp only [insertByKey]
    split
    · simp only [List.mem_cons, ih]
      tauto
    · simp only [List.mem_cons]

/-- Membership is preserved by the stable sort. -/
theorem mem_sortByKey {α : Type} (key : α → Nat) (l : List α) (a : α) :
    a ∈ sortByKey key l ↔ a ∈ l := by
  unfold sortByKey
  suffices h : ∀ (l : List α) (acc : List α),
      a ∈ l.foldl (fun acc x => insertByKey key x acc) acc ↔ a ∈ acc ∨ a ∈ l by
    simpa using h l []
  intro l
  induction l with
  | nil => simp
  | cons x rest ih =>
    intro acc
    simp only [List.foldl_cons, ih, mem_insertByKey, List.mem_cons]
    tauto

/-- In a list whose images under `f` are duplicate-free, the elements
mapping to a given image form exactly the singleton of any known
preimage. -/
theorem filter_eq_singleton_of_nodup {α β : Type} [DecidableEq β] (f : α → β) (l : List α)
    (s : α) (b : β) (hnd : (l.map f).Nodup) (hs : s ∈ l) (hb : f s = b) :
    l.filter (fun x => f x = b) = [s] := by
  induction l with
  | nil => simp at hs
  | cons x rest ih =>
    have hnd1 : (rest.map f).Nodup := (List.nodup_cons.mp (by simpa using hnd)).2
    have hnotin : f x ∉ rest.map f := (List.nodup_cons.mp (by simpa using hnd)).1
    rcases List.mem_cons.mp hs with rfl | hmem
    · rw [List.filter_cons_of_pos (by simpa using hb)]
      have hrest : rest.filter (fun x => f x = b) = [] := by
        rw [List.filter_eq_nil_iff]
        intro y hy
        simp only [decide_eq_true_eq]
        intro he
        exact hnotin (by
          rw [hb, ← he]
          exact List.mem_map_of_mem f hy)
      rw [hrest]
    · have hx : ¬ (f x = b) := by
        intro he
        exact hnotin (by
          rw [he, ← hb]
          exact List.mem_map_of_mem f hmem)
      rw [List.filter_cons_of_neg (by simpa using hx)]
      exact ih hnd1 hmem

/-- Every grouped subscription's chat is a key of the subscription map. -/
theorem chatId_mem_of_mem_allSubs (subs : List (Int × List SubRecord)) (sw : SubWithChat)
    (hm : sw ∈ allSubsWithChat subs) : sw.chatId ∈ keysOf subs := by
  unfold allSubsWithChat at hm
  rcases List.mem_flatMap.mp hm with ⟨p, hp, hsw⟩
  rcases List.mem_map.mp hsw with ⟨s, _, rfl⟩
  simpa [keysOf] using List.mem_map_of_mem Prod.fst hp

/-- With duplicate-free chat keys, the members of one address group that
belong to one chat are exactly that chat's matching subscriptions, in
order. -/
theorem subsForAddr_filter_chat (subs : List (Int × List SubRecord)) (c : Int)
    (chatSubs : List SubRecord) (addr : String)
    (hnd : (keysOf subs).Nodup) (hmem : (c, chatSubs) ∈ subs) :
    (subsForAddr subs addr).filter (fun sw => sw.chatId = c) =
      (chatSubs.filter (fun s => jsToLower s.address = addr)).map (fun s => ⟨s, c⟩) := by
  induction subs with
  | nil => simp at hmem
  | cons p rest ih =>
    obtain ⟨p1, p2⟩ := p
    have hnd1 : (keysOf rest).Nodup := (List.nodup_cons.mp (by simpa [keysOf] using hnd)).2
    have hnotin : p1 ∉ keysOf rest := (List.nodup_cons.mp (by simpa [keysOf] using hnd)).1
    have hsplit : subsForAddr ((p1, p2) :: rest) addr =
        ((p2.map (fun s => (⟨s, p1⟩ : SubWithChat))).filter
          (fun sw => jsToLower sw.sub.address = addr)) ++ subsForAddr rest addr := by
      unfold subsForAddr allSubsWithChat
      simp [List.filter_append]
    rw [hsplit, List.filter_append]
    rcases List.mem_cons.mp hmem with heq | hrest
    · have hc : c = p1 := congrArg Prod.fst heq
      have hsubs : chatSubs = p2 := congrArg Prod.snd heq
      subst hc
      subst hsubs
      have hpart2 : (subsForAddr rest addr).filter (fun sw => sw.chatId = c) = [] := by
        rw [List.filter_eq_nil_iff]
        intro sw hsw
        simp only [decide_eq_true_eq]
        intro he
        exact hnotin (by
          rw [← he]
          exact chatId_mem_of_mem_allSubs rest sw (List.mem_of_mem_filter hsw))
      rw [hpart2, List.append_nil]
      rw [List.filter_map, List.filter_map]
      congr 1
      simp [Function.comp]
    · have hcne : c ≠ p1 := by
        intro he
        subst he
        exact hnotin (by simpa [keysOf] using List.mem_map_of_mem Prod.fst hrest)
      have hpart1 : ((p2.map (fun s => (⟨s, p1⟩ : SubWithChat))).filter
          (fun sw => jsToLower sw.sub.address = addr)).filter (fun sw => sw.chatId = c)
            = [] := by
        rw [List.filter_eq_nil_iff]
        intro sw hsw
        have hsw2 := List.mem_of_mem_filter hsw
        rcases List.mem_map.mp hsw2 with ⟨s, _, rfl⟩
        simp only [decide_eq_true_eq]
        exact fun he => hcne he.symm
      rw [hpart1, List.nil_append]
      exact ih hnd1 hrest

/-- A pending message determines its originating policy decision: the
chat, address and event time are carried over, and the no-backfill test
passed strictly. -/
theorem pendingFor_inv (address : String) (a : Activity) (c : Int) (info : SubInfo)
    (pm : PendingMessage) (h : pendingFor address a c info = some pm) :
    pm.chatId = c ∧ pm.address = address ∧ pm.timestamp = a.timestamp ∧
      info.addedAtSec < a.timestamp := by
  unfold pendingFor at h
  split at h
  · cases h
  · split at h
    · cases h
    · split at h
      · cases h
      · split at h
        · cases h
        · split at h
          · cases h
          · split at h
            · cases h
            · cases h
              refine ⟨rfl, rfl, rfl, ?_⟩
              omega

/-- The first-wins `subInfoMap` has duplicate-free chat keys. -/
theorem buildSubInfoMap_keys_nodup (configs : List (Int × UserConfig)) (shortAddr : String)
    (subs : List SubWithChat) :
    (keysOf (buildSubInfoMap configs shortAddr subs)).Nodup := by
  unfold buildSubInfoMap
  suffices h : ∀ (subs : List SubWithChat) (acc : List (Int × SubInfo)),
      (keysOf acc).Nodup →
      (keysOf (subs.foldl (fun m sw =>
        match alookup m sw.chatId with
        | some _ => m
        | none => m ++ [(sw.chatId, mkSubInfo configs shortAddr sw)]) acc)).Nodup by
    exact h subs [] (by simp [keysOf])
  intro subs
  induction subs with
  | nil => intro acc hacc; exact hacc
  | cons sw rest ih =>
    intro acc hacc
    simp only [List.foldl_cons]
    cases hl : alookup acc sw.chatId with
    | some i => exact ih acc hacc
    | none =>
      apply ih
      have hk : sw.chatId ∉ keysOf acc := (alookup_eq_none_iff acc sw.chatId).mp hl
      have hkeys : keysOf (acc ++ [(sw.chatId, mkSubInfo configs shortAddr sw)]) =
          keysOf acc ++ [sw.chatId] := by
        simp [keysOf]
      rw [hkeys]
      simp [List.nodup_append, hacc, hk]

/-- Lookup in the `subInfoMap`: the first subscription of the chat in
group order provides the record. -/
theorem alookup_buildSubInfoMap (configs : List (Int × UserConfig)) (shortAddr : String)
    (subs : List SubWithChat) (c : Int) :
    alookup (buildSubInfoMap configs shortAddr subs) c =
      (subs.find? (fun sw => sw.chatId = c)).map (mkSubInfo configs shortAddr) := by
  unfold buildSubInfoMap
  suffices h : ∀ (subs : List SubWithChat) (acc : List (Int × SubInfo)),
      alookup (subs.foldl (fun m sw =>
        match alookup m sw.chatId with
        | some _ => m
        | none => m ++ [(sw.chatId, mkSubInfo configs shortAddr sw)]) acc) c =
      (match alookup acc c with
       | some i => some i
       | none => (subs.find? (fun sw => sw.chatId = c)).map (mkSubInfo configs shortAddr)) by
    have hx := h subs []
    simpa [alookup] using hx
  intro subs
  induction subs with
  | nil =>
    intro acc
    simp only [List.foldl_nil]
    cases h : alookup acc c <;> simp [h]
  | cons sw rest ih =>
    intro acc
    simp only [List.foldl_cons]
    cases hacc : alookup acc sw.chatId with
    | some i0 =>
      rw [ih acc]
      cases hc : alookup acc c with
      | some i => rfl
      | none =>
        have hne : ¬ (sw.chatId = c) := by
          intro he
          rw [he, hc] at hacc
          cases hacc
        rw [List.find?_cons_of_neg _ (by simpa using hne)]
    | none =>
      rw [ih _, alookup_append]
      cases hc : alookup acc c with
      | some i => rfl
      | none =>
        by_cases he : sw.chatId = c
        · subst he
          rw [List.find?_cons_of_pos _ (by simp)]
          simp [alookup]
        · rw [List.find?_cons_of_neg _ (by simpa using he)]
          simp [alookup, he]

/-- Every pending message one address group produces comes from one
activity and the chat's `subInfoMap` record via `pendingFor`. -/
theorem processAddress_pending_mem (apiTransport : String → ActivityParams → List Activity)
    (now : Nat) (configs : List (Int × UserConfig)) (sentSet : List String)
    (la : List (String × Nat)) (address : String) (subs : List SubWithChat)
    (pm : PendingMessage)
    (h : pm ∈ (processAddress apiTransport now configs sentSet la address subs).pending) :
    ∃ (a : Activity) (c : Int) (info : SubInfo),
      alookup (buildSubInfoMap configs (shortenAddress address) subs) c = some info ∧
      pendingFor address a c info = some pm := by
  have hnd := buildSubInfoMap_keys_nodup configs (shortenAddress address) subs
  simp only [processAddress] at h
  repeat' split at h
  all_goals simp only [List.not_mem_nil] at h
  all_goals
    (simp only [List.mem_flatMap, pendingOfActivity, List.mem_filterMap] at h
     obtain ⟨a, _, p, hp, hpf⟩ := h
     exact ⟨a, p.1, p.2, alookup_of_mem_nodup _ p.1 p.2 hnd (by simpa using hp), hpf⟩)

/-- Pending messages of the whole per-address phase come from one of the
address groups. -/
theorem processAll_pending_mem (apiTransport : String → ActivityParams → List Activity)
    (now : Nat) (configs : List (Int × UserConfig)) (sentSet : List String)
    (la0 : List (String × Nat)) (entries : List (String × List SubWithChat))
    (pm : PendingMessage)
    (h : pm ∈ (processAll apiTransport now configs sentSet la0 entries).pending) :
    ∃ la e, e ∈ entries ∧
      pm ∈ (processAddress apiTransport now configs sentSet la e.1 e.2).pending := by
  revert h
  suffices h : ∀ (entries : List (String × List SubWithChat)) (acc : Phase1Out),
      ∀ pm ∈ (entries.foldl (fun acc e =>
        let r := processAddress apiTransport now configs sentSet acc.la e.1 e.2
        { la := r.la
          pending := acc.pending ++ r.pending
          processed := acc.processed + r.processed
          calls := acc.calls ++ r.calls }) acc).pending,
        pm ∈ acc.pending ∨ ∃ la e, e ∈ entries ∧
          pm ∈ (processAddress apiTransport now configs sentSet la e.1 e.2).pending by
    intro hm
    rcases h entries { la := la0, pending := [], processed := 0, calls := [] } pm hm with
      hacc | hrest
    · simp at hacc
    · exact hrest
  intro entries
  induction entries with
  | nil =>
    intro acc pm hm
    exact Or.inl hm
  | cons e rest ih =>
    intro acc pm hm
    simp only [List.foldl_cons] at hm
    rcases ih _ pm hm with hacc | ⟨la, e', he', hm'⟩
    · simp only [List.mem_append] at hacc
      rcases hacc with h1 | h2
      · exact Or.inl h1
      · exact Or.inr ⟨acc.la, e, List.mem_cons_self _ _, h2⟩
    · exact Or.inr ⟨la, e', List.mem_cons_of_mem _ he', hm'⟩

/-- Claim C4: no backfill. With the storage invariants that chat keys are
unique and each chat's subscription addresses are unique after case
normalization (which `saveUserSubscriptions` enforces by deduplicating on
the lowercased address), every pending message a cycle generates for a
subscriber is strictly newer, in seconds, than that subscriber's
`addedAt` for the message's address — including on the very first cycle
after subscribing. -/
theorem c4_no_backfill (apiTransport : String → ActivityParams → List Activity)
    (sendOk : Nat → Bool) (now : Nat) (cache : Cache)
    (hchats : (keysOf cache.userSubscriptions).Nodup)
    (haddrs : ∀ c subsC, (c, subsC) ∈ cache.userSubscriptions →
      (subsC.map (fun s => jsToLower s.address)).Nodup)
    (pm : PendingMessage)
    (hpm : pm ∈ (checkSubscriptions apiTransport sendOk now cache).pending)
    (c : Int) (subsC : List SubRecord) (s : SubRecord)
    (hcs : (c, subsC) ∈ cache.userSubscriptions) (hs : s ∈ subsC)
    (hchat : pm.chatId = c) (haddr : jsToLower s.address = pm.address) :
    s.addedAt / 1000 < pm.timestamp := by
  simp only [checkSubscriptions] at hpm
  split at hpm
  · simp at hpm
  · dsimp only at hpm
    rw [mem_sortByKey] at hpm
    obtain ⟨la, e, he, hpe⟩ := processAll_pending_mem apiTransport now cache.userConfigs
      cache.sentTxHashes cache.lastActivities (buildAddressMap cache.userSubscriptions) pm hpm
    obtain ⟨a, c', info, hlook, hpf⟩ := processAddress_pending_mem apiTransport now
      cache.userConfigs cache.sentTxHashes la e.1 e.2 pm hpe
    obtain ⟨hchat', haddr', hts, hlt⟩ := pendingFor_inv e.1 a c' info pm hpf
    have hc' : c' = c := by rw [← hchat, hchat']
    rw [hc'] at hlook
    have hgroups : e.2 = subsForAddr cache.userSubscriptions e.1 := by
      have h1 : alookup (buildAddressMap cache.userSubscriptions) e.1 = some e.2 := by
        obtain ⟨e1, e2⟩ := e
        exact alookup_of_mem_nodup _ e1 e2 (buildAddressMap_keys_nodup _) he
      rw [alookup_buildAddressMap] at h1
      by_cases hemp : subsForAddr cache.userSubscriptions e.1 = []
      · rw [if_pos hemp] at h1
        cases h1
      · rw [if_neg hemp] at h1
        exact (Option.some.injEq _ _ ▸ h1).symm
    rw [alookup_buildSubInfoMap] at hlook
    have hfind : ∃ sw, e.2.find? (fun sw => sw.chatId = c) = some sw ∧
        info = mkSubInfo cache.userConfigs (shortenAddress e.1) sw := by
      cases hf : e.2.find? (fun sw => sw.chatId = c) with
      | none =>
        rw [hf] at hlook
        cases hlook
      | some sw =>
        rw [hf] at hlook
        exact ⟨sw, rfl, (Option.some.injEq _ _ ▸ hlook).symm⟩
    obtain ⟨sw, hfindeq, hinfo⟩ := hfind
    have hfilter : (subsForAddr cache.userSubscriptions e.1).filter
        (fun sw => sw.chatId = c) =
        (subsC.filter (fun s => jsToLower s.address = e.1)).map (fun s => ⟨s, c⟩) :=
      subsForAddr_filter_chat cache.userSubscriptions c subsC e.1 hchats hcs
    have haddr1 : jsToLower s.address = e.1 := by rw [haddr, haddr']
    have hsingle : subsC.filter (fun s => jsToLower s.address = e.1) = [s] :=
      filter_eq_singleton_of_nodup (fun s => jsToLower s.address) subsC s e.1
        (haddrs c subsC hcs) hs haddr1
    have hsw : sw = ⟨s, c⟩ := by
      have h2 := hfindeq
      rw [find?_eq_head?_filter, hgroups, hfilter, hsingle] at h2
      simpa using h2.symm
    have haddedsec : info.addedAtSec = s.addedAt / 1000 := by
      rw [hinfo, hsw]
      show (if s.addedAt ≠ 0 then s.addedAt / 1000 else 0) = s.addedAt / 1000
      by_cases hz : s.addedAt = 0
      · rw [if_neg (fun hh => hh hz), hz]
      · rw [if_pos hz]
    rw [hts]
    rw [← haddedsec]
    exact hlt

set_option maxRecDepth 4000 in
/-- Claim C4 witness: in the concrete cycle the one pending message's
event time (100 seconds) is strictly after the subscription's creation
second (20000 ms, i.e. second 20). -/
theorem c4_witness :
    (⟨"0xA", "", 20000⟩ : SubRecord).addedAt / 1000 <
      (exOutOne.pending.headD ⟨0, "", 0, "", ""⟩).timestamp :=
  c4_no_backfill (fun _ _ => [exTrade]) (fun _ => true) 1000 exCacheOne
    (by decide)
    (by
      intro c subsC hmem
      simp only [exCacheOne, List.mem_singleton, Prod.mk.injEq] at hmem
      rw [hmem.2]
      decide)
    (exOutOne.pending.headD ⟨0, "", 0, "", ""⟩)
    (by decide)
    7 [⟨"0xA", "", 20000⟩] ⟨"0xA", "", 20000⟩
    (by decide) (by decide) (by decide) (by decide)

end Polymarket
